import Mathlib

/-!
Verification of the tournament bracket construction and progression engine.

The source is a TypeScript tournament driver.  It is embedded shallowly:

* `Team` — a pair of user identifiers; the distinguished `Team.bye` sentinel
  models the reference-compared `Team.bye` singleton of the source (reference
  equality of the singleton is modelled by the separate constructor, so a team
  built from two empty strings is *not* the sentinel, exactly as `===` behaves
  in the source).
* `Game` — a node of the bracket graph.  The source stores direct object
  references in `previous_games` / `next_game`; here the graph is an arena:
  every game lives in one list (position `id - 1`) and links are ids.
* `createBracket` — the bracket builder, translated loop by loop; the loops of
  the source become structural recursions (`populateIters`, `buildIters`,
  `roundsIters`) that unroll the loop in iteration order.
* `Game.start` (`startGame`) — the synchronous part of the advancement state
  machine: the effects one invocation emits (`announceBye`, `summonTable` =
  constructing a `GameRoom`) together with the state it leaves.  Asynchronous
  match completion is modelled by the `Step` relation, which pushes a winning
  or surviving team into a successor.
* `pickTeams` — team formation.  The random shuffle is an input (the list of
  entries is the already-shuffled order), the random drop sample is an input
  index, and the bot-name generator is an input function.  Failed `assert`s
  are modelled by returning `none`.
-/

/-- A team of two user identifiers.  `Team.bye` is the sentinel singleton
`Team.bye = new Team('', '')` of the source; the source compares it with
reference equality, which the separate constructor models faithfully. -/
inductive Team where
  | bye : Team
  | mk (a b : String) : Team
deriving DecidableEq, Repr

/-- The `users` field of a team: `Team.bye` was constructed as
`new Team('', '')`, so its users are two empty strings. -/
def Team.users : Team → List String
  | .bye => ["", ""]
  | .mk a b => [a, b]

/-- A game node of the bracket.  `previous_games` and `next_game` hold game
ids (arena representation of the source's object references). -/
structure Game where
  id : Nat
  round : Nat
  teams : List Team := []
  started : Bool := false
  finished : Bool := false
  col : Int := -1
  row : Int := -1
  previous_games : List Nat := []
  next_game : Option Nat := none
deriving DecidableEq, Repr

/-- Placeholder game used as `getD` default; it has id 0, which no real game
ever carries, so it is never produced by an in-range lookup. -/
def noGame : Game := { id := 0, round := 0 }

instance : Inhabited Game := ⟨noGame⟩

/-- The `bye` getter of `Game`:
`const [a, b] = this.teams; if (a === Team.bye) return b; if (b === Team.bye) return a;`
With fewer than two teams the destructured `b` is `undefined`, so the getter
returns `undefined` (here `none`) — also when the single team is the sentinel,
because then it returns the undefined `b`. -/
def Game.byeTeam (g : Game) : Option Team :=
  match g.teams with
  | a :: b :: _ =>
      if a = Team.bye then some b else if b = Team.bye then some a else none
  | _ => none

/-- `GameRoom.isBot`: synthetic opponents are the identifiers generated as
`:bot:<name>`.  Modelled from the spec: the predicate recognizing synthetic
opponents (the `GameRoom` module is an external collaborator, not in scope). -/
def isBot (s : String) : Bool := s.startsWith ":bot:"

/-! ## Bracket construction (`TournamentDriver.createBracket`) -/

/-- The loop `let game_count = 2; while (team_count > (2 * game_count))
game_count *= 2;`.  The `0 < gc` guard only serves termination; the source
always starts the loop at `gc = 2` and doubling keeps `gc` positive, so the
guard never changes reachable behaviour. -/
def gameCountFrom (n gc : Nat) : Nat :=
  if h : 0 < gc ∧ 2 * gc < n then gameCountFrom n (2 * gc) else gc
termination_by n - gc
decreasing_by omega

/-- `game_count` as computed by `createBracket` for `team_count = n`. -/
def gameCount (n : Nat) : Nat := gameCountFrom n 2

/-- Indexing `teams[k]`; out of range the source would yield `undefined`,
which behaves as a team object that is not the sentinel — modelled by a
default non-sentinel team.  All reachable reads are in range. -/
def teamAt (teams : List Team) (k : Nat) : Team := teams.getD k (Team.mk "" "")

/-- The inner helper `populate_game(index, round, byes, top, bottom)` of
`createBracket`, acting on the arena of round-1 games (round is always 0 =
first round there, and `rounds[0][index]` is the game with id `index + 1`,
stored at arena position `index`).  Returns the updated arena and the new
`[byes, top, bottom]`. -/
def populate_game (teams : List Team) (games : List Game)
    (index byes top bottom : Nat) : List Game × Nat × Nat × Nat :=
  let g0 := games.getD index noGame
  let g1 := { g0 with
    teams := g0.teams ++ [teamAt teams top],
    row := (index : Int) * 2 }
  if 0 < byes then
    let g2 := { g1 with
      teams := g1.teams ++ [Team.bye], started := true, finished := true }
    (games.set index g2, byes - 1, top + 1, bottom)
  else
    let g2 := { g1 with teams := g1.teams ++ [teamAt teams bottom] }
    (games.set index g2, byes, top + 1, bottom - 1)

/-- The population loop
`for (let i = 0; i < game_count / 2; i++) { populate(i); populate(game_count - (1 + i)); }`
unrolled: `populateIters n` performs the first `n` iterations (i = 0 .. n-1)
on the state `(games, byes, top, bottom)`. -/
def populateIters (teams : List Team) (gc : Nat) :
    Nat → List Game × Nat × Nat × Nat → List Game × Nat × Nat × Nat
  | 0, st => st
  | n + 1, st =>
      let st1 := populateIters teams gc n st
      let st2 := populate_game teams st1.1 n st1.2.1 st1.2.2.1 st1.2.2.2
      populate_game teams st2.1 (gc - (1 + n)) st2.2.1 st2.2.2.1 st2.2.2.2

/-- The freshly created round-1 games `new Game(i + 1, 1)` for
`i = 0 .. gc-1`. -/
def initGames (gc : Nat) : List Game :=
  (List.range gc).map (fun i => { id := i + 1, round := 1 : Game })

/-- Round 1 after the population loop: `top` starts at 0 and `bottom` at
`teams.length - 1`. -/
def populateRound1 (teams : List Team) (gc byes : Nat) : List Game :=
  (populateIters teams gc (gc / 2)
    (initGames gc, byes, 0, teams.length - 1)).1

/-- Setting `next_game` of the game with the given id (the source mutates the
shared object; in the arena the game is found by its unique id). -/
def setNextGame (games : List Game) (pid nid : Nat) : List Game :=
  games.map (fun g => if g.id = pid then { g with next_game := some nid } else g)

/-- One iteration `i = n` of the inner loop of the later-round construction:
create `new Game(game_id, round)` with its two predecessors
`rounds[round-2][2n]` and `rounds[round-2][2n+1]`, link both ways, set layout.
`buildIters` performs the first `n` iterations, threading
`(games, idsOfThisRound, game_id)`. -/
def buildIters (prevIds : List Nat) (round gc rgames row : Nat) :
    Nat → List Game × List Nat × Nat → List Game × List Nat × Nat
  | 0, st => st
  | n + 1, st =>
      let st1 := buildIters prevIds round gc rgames row n st
      let games := st1.1
      let ids := st1.2.1
      let gid := st1.2.2
      let p1 := prevIds.getD (n * 2) 0
      let p2 := prevIds.getD (n * 2 + 1) 0
      let g : Game := {
        id := gid, round := round,
        previous_games := [p1, p2],
        col := 2 * ((round : Int) - 1),
        row := (row : Int) + ((gc / rgames) * n * 2 : Nat) }
      let games := setNextGame games p1 gid
      let games := setNextGame games p2 gid
      (games ++ [g], ids ++ [gid], gid + 1)

/-- State threaded through the outer later-rounds loop. -/
structure BuildSt where
  games : List Game
  rounds : List (List Nat)
  round_games : Nat
  row : Nat
  game_id : Nat
deriving Repr

/-- The body of `for (let round = 2; round < round_count + 1; round++)`:
build all games of `round`, append the round, then
`row += Math.floor(Math.pow(2, round - 1)); round_games /= 2;`. -/
def roundStep (gc round : Nat) (st : BuildSt) : BuildSt :=
  let prevIds := st.rounds.getD (round - 2) []
  let built := buildIters prevIds round gc st.round_games st.row
    st.round_games (st.games, [], st.game_id)
  { games := built.1,
    rounds := st.rounds ++ [built.2.1],
    round_games := st.round_games / 2,
    row := st.row + 2 ^ (round - 1),
    game_id := built.2.2 }

/-- The outer loop unrolled: `roundsIters n` performs the iterations for
rounds `2 .. n+1` in order. -/
def roundsIters (gc : Nat) : Nat → BuildSt → BuildSt
  | 0, st => st
  | n + 1, st => roundStep gc (n + 2) (roundsIters gc n st)

/-- `TournamentDriver.createBracket`, producing the arena of games (the games
map: the game with id `k+1` sits at position `k`) and the rounds as lists of
game ids.  With fewer than 4 teams it returns the empty map and no rounds. -/
def createBracket (teams : List Team) : List Game × List (List Nat) :=
  let team_count := teams.length
  if team_count < 4 then ([], [])
  else
    let gc := gameCount team_count
    let byes := gc * 2 - team_count
    let round_count := Nat.log2 gc + 1
    let games := populateRound1 teams gc byes
    let st := roundsIters gc (round_count - 1)
      { games := games,
        rounds := [(List.range gc).map (· + 1)],
        round_games := gc / 2,
        row := 1,
        game_id := gc + 1 }
    (st.games, st.rounds)

/-- The `canceled` getter: `this.rounds.length === 0`. -/
def canceled (rounds : List (List Nat)) : Bool := rounds.length = 0

/-! ## The advancement state machine (`Game.start`) -/

/-- Observable effects of one synchronous `start()` invocation.
`summonTable gid round` records the construction of the `GameRoom` for the
game with id `gid` (the source constructs the room and immediately emits
`summonTable`). -/
inductive StartEffect where
  | announceBye (round : Nat) (user : String)
  | summonTable (gid : Nat) (round : Nat)
deriving DecidableEq, Repr

/-- Looking a game up by id, as the source's object references do. -/
def findGame (games : List Game) (gid : Nat) : Option Game :=
  games.find? (fun g => g.id = gid)

/-- `next_game.teams.push(t)` on the shared arena. -/
def pushTeam (games : List Game) (nid : Nat) (t : Team) : List Game :=
  games.map (fun g => if g.id = nid then { g with teams := g.teams ++ [t] } else g)

/-- The synchronous part of `Game.start`, by id on the arena:

* bye present → announce it for every non-bot user of the surviving team,
  push the survivor into the successor (`expected(this.next_game)` throws if
  there is none — modelled by `none`) and recurse into the successor;
* fewer than two teams → no-op;
* otherwise → construct the `GameRoom` and emit `summonTable` (the recorded
  effect); the bracket state is left unchanged — nothing marks the game
  active.

`fuel` bounds the bye chain (it only ever needs the number of rounds);
exhausted fuel is `none`, which never occurs on a real bracket. -/
def startGame (games : List Game) (gid : Nat) :
    Nat → Option (List Game × List StartEffect)
  | 0 => none
  | fuel + 1 =>
    match findGame games gid with
    | none => none
    | some g =>
      match g.byeTeam with
      | some surv =>
          let effs := (surv.users.filter (fun u => !isBot u)).map
            (StartEffect.announceBye g.round)
          match g.next_game with
          | none => none
          | some nid =>
              (startGame (pushTeam games nid surv) nid fuel).map
                (fun r => (r.1, effs ++ r.2))
      | none =>
          if g.teams.length < 2 then some (games, [])
          else some (games, [StartEffect.summonTable gid g.round])

/-- Number of `GameRoom` constructions among the effects. -/
def roomsIn (effs : List StartEffect) : Nat :=
  effs.countP (fun e => match e with
    | .summonTable _ _ => true
    | _ => false)

/-- Asynchronous advancement events on the bracket: a bye-resolved game pushes
its surviving team into its successor, and a finished match pushes the
winning team (always a freshly constructed two-user team) into its
successor.  These are exactly the two `next_game.teams.push(...)` sites of
`Game.start`. -/
inductive Step : List Game → List Game → Prop
  | bye (games : List Game) (gid nid : Nat) (g : Game) (surv : Team)
      (hfind : findGame games gid = some g)
      (hbye : g.byeTeam = some surv)
      (hnext : g.next_game = some nid) :
      Step games (pushTeam games nid surv)
  | winners (games : List Game) (gid nid : Nat) (g : Game) (a b : String)
      (hfind : findGame games gid = some g)
      (hbye : g.byeTeam = none)
      (hteams : 2 ≤ g.teams.length)
      (hnext : g.next_game = some nid) :
      Step games (pushTeam games nid (Team.mk a b))

/-- Number of `Team.bye` sentinels among a game's teams. -/
def byeCount (g : Game) : Nat := g.teams.count Team.bye


/-- Structural well-formedness preserved by the advancement events: ids are
sequential, every game has at most one `Bye`, round-1 games keep their two
construction seats with a real first seat, later-round games never contain
the sentinel, and successor pointers lead to later-round games. -/
def GoodBracket (games : List Game) : Prop :=
  (∀ k, k < games.length → (games.getD k noGame).id = k + 1) ∧
  (∀ g ∈ games, 1 ≤ g.round ∧ byeCount g ≤ 1 ∧
    (g.round = 1 → g.teams.length = 2 ∧
      g.teams.getD 0 (Team.mk "" "") ≠ Team.bye) ∧
    (2 ≤ g.round → Team.bye ∉ g.teams)) ∧
  (∀ g ∈ games, ∀ nid, g.next_game = some nid →
    ∀ g' ∈ games, g'.id = nid → 2 ≤ g'.round)

/-! ## Team formation (`TournamentDriver.pickTeams`) -/

/-- `Set.add`: append only if not present (JS `Set` keeps insertion order and
ignores duplicates). -/
def setAdd (s : List String) (x : String) : List String :=
  if x ∈ s then s else s ++ [x]

/-- `let max = 8; while (count > max) max *= 2;` — same termination guard
note as `gameCountFrom`. -/
def botMaxFrom (count m : Nat) : Nat :=
  if h : 0 < m ∧ m < count then botMaxFrom count (2 * m) else m
termination_by count - m
decreasing_by omega

/-- `for (let i = 0; i < k; i++) rejects.add(`:bot:${nextBotName()}`)`; the
stateful generator's successive outputs are `botName 0, botName 1, …`. -/
def fillBots (botName : Nat → String) : Nat → List String → List String
  | 0, s => s
  | n + 1, s => setAdd (fillBots botName n s) (":bot:" ++ botName n)

/-- `signups.get(u)` on the (already shuffled) entry list; the signup map has
unique keys, so the first hit is the entry.  The empty string is the falsy
"no partner chosen" value. -/
def lookupPartner (entries : List (String × String)) (u : String) : Option String :=
  (entries.find? (fun e => e.1 = u)).map (fun e => e.2)

/-- The mutual-partner pass: walk the entries, and for each user still in the
reject pool whose chosen partner is still in the pool and chose this user
back, form the team and delete both from the pool.  The four early
`continue`s of the source are the negation of the combined condition. -/
def mutualPass (all : List (String × String)) :
    List (String × String) → List Team → List String → List Team × List String
  | [], teams, rejects => (teams, rejects)
  | (user, partner) :: rest, teams, rejects =>
      if user ∈ rejects ∧ partner ≠ "" ∧ partner ∈ rejects ∧
          lookupPartner all partner = some user then
        mutualPass all rest (teams ++ [Team.mk user partner])
          ((rejects.erase user).erase partner)
      else
        mutualPass all rest teams rejects

/-- The pairing loop `while (left.length > 0) { a = left.pop(); b = left.pop();
assert(a); assert(b); teams.push(new Team(a, b)); }`, expressed on the
reversed list (popping from the end = walking the reverse).  A failed assert
(undefined pop or empty-string identifier, both falsy) is `none`. -/
def pairUpRev : List String → Option (List Team)
  | [] => some []
  | [_] => none
  | a :: b :: rest =>
      if a = "" ∨ b = "" then none
      else (pairUpRev rest).map (fun ts => Team.mk a b :: ts)

/-- The reject pool right before team formation: all signup keys (a JS `Set`,
so insertion order with duplicates ignored), bot-filled up to the smallest
power of two ≥ 8 when the host is `'bots'`. -/
def initialPool (entries : List (String × String)) (hostBots : Bool)
    (botName : Nat → String) : List String :=
  let rejects := entries.foldl (fun s e => setAdd s e.1) []
  if hostBots then
    let count := rejects.length
    let m := botMaxFrom count 8
    fillBots botName (m - count) rejects
  else rejects

/-- `TournamentDriver.pickTeams`.  Inputs: the shuffled signup entries
(`_.shuffle` is modelled by taking the shuffled order as the input), the
`host === 'bots'` flag, the `choosePartner` flag, the bot-name generator, and
the index drawn by `_.sample` for the drop.  `none` models a failed
`assert`. -/
def pickTeams (entries : List (String × String)) (hostBots choosePartner : Bool)
    (botName : Nat → String) (sampleIdx : Nat) :
    Option (List Team × Option String) :=
  let pool := initialPool entries hostBots botName
  let tr := if choosePartner then mutualPass entries entries [] pool
            else ([], pool)
  let teams := tr.1
  let rejects := tr.2
  if rejects.length % 2 ≠ 0 then
    let dropped := rejects.getD (sampleIdx % rejects.length) ""
    if dropped = "" then none
    else
      let rejects' := rejects.erase dropped
      if rejects'.length % 2 ≠ 0 then none
      else (pairUpRev rejects'.reverse).map
        (fun ps => (teams ++ ps, some dropped))
  else
    if rejects.length % 2 ≠ 0 then none
    else (pairUpRev rejects.reverse).map (fun ps => (teams ++ ps, none))

/-- All users of a team list, in order. -/
def usersOf (ts : List Team) : List String :=
  ts.foldr (fun t acc => t.users ++ acc) []

/-! ## Concrete fixtures used by witnesses and counterexamples -/

/-- Four concrete teams (so `game_count = 2`, no byes). -/
def cexTeams : List Team :=
  [Team.mk "a" "b", Team.mk "c" "d", Team.mk "e" "f", Team.mk "g" "h"]

/-- Five concrete teams (so `game_count = 4`, three byes). -/
def cexTeams5 : List Team :=
  [Team.mk "a" "b", Team.mk "c" "d", Team.mk "e" "f", Team.mk "g" "h",
   Team.mk "i" "j"]

/-! ## Closed form of the bracket construction

The population loop visits bracket positions in the order
`0, gc-1, 1, gc-2, …`; the `k`-th `populate_game` call reads `teams[k]` with
the `top` cursor, and its second seat is `Bye` for the first `byes` calls and
`teams[bottom]` afterwards.  `topAt gc p` is the `top`-cursor value when
position `p` is populated, and `secondSeat` resolves the second seat of the
`k`-th call.  The later rounds then form consecutive id blocks; `idOfs` is
the id offset of round index `ρ` (0-based) and `roundSize` its game count. -/

/-- `top` cursor value at the population of round-1 position `p`. -/
def topAt (gc p : Nat) : Nat :=
  if p < gc / 2 then 2 * p else 2 * (gc - 1 - p) + 1

/-- Second seat pushed by the `k`-th `populate_game` call: the `Bye`
sentinel while byes remain, otherwise the `bottom` cursor's team. -/
def secondSeat (teams : List Team) (byes k : Nat) : Team :=
  if k < byes then Team.bye
  else teamAt teams (teams.length - 1 - (k - byes))

/-- The round-1 game at position `p` after the `k`-th `populate_game` call
filled it. -/
def popGameK (teams : List Team) (byes p k : Nat) : Game :=
  { id := p + 1, round := 1,
    teams := [teamAt teams k, secondSeat teams byes k],
    started := decide (k < byes), finished := decide (k < byes),
    col := -1, row := (p : Int) * 2, previous_games := [], next_game := none }

/-- The round-1 arena after `n` iterations of the population loop:
positions `< n` were filled by top-bracket calls (`k = 2p`), positions
`≥ gc - n` by bottom-bracket calls (`k = 2(gc-1-p)+1`), the rest are still
fresh. -/
def popArena (teams : List Team) (gc byes n : Nat) : List Game :=
  (List.range gc).map (fun p =>
    if p < n then popGameK teams byes p (2 * p)
    else if gc - n ≤ p then popGameK teams byes p (2 * (gc - 1 - p) + 1)
    else { id := p + 1, round := 1 })

/-- The fully populated round-1 game at position `p`. -/
def popGame (teams : List Team) (gc byes p : Nat) : Game :=
  popGameK teams byes p (topAt gc p)

/-- Games in round index `ρ` (0-based): `gc / 2^ρ`. -/
def roundSize (gc ρ : Nat) : Nat := gc / 2 ^ ρ

/-- Id offset of round index `ρ`: number of games in earlier rounds. -/
def idOfs (gc : Nat) : Nat → Nat
  | 0 => 0
  | ρ + 1 => idOfs gc ρ + roundSize gc ρ

/-- Game of round index `ρ ≥ 1` at position `i`, in a bracket whose rounds
`0 .. upto-1` have been built (the last built round has no successor yet). -/
def specLater (gc upto ρ i : Nat) : Game :=
  { id := idOfs gc ρ + i + 1, round := ρ + 1, teams := [],
    started := false, finished := false,
    col := 2 * ((ρ : Int) + 1 - 1),
    row := ((2 ^ ρ - 1) + 2 ^ (ρ + 1) * i : Nat),
    previous_games := [idOfs gc (ρ - 1) + 2 * i + 1, idOfs gc (ρ - 1) + 2 * i + 2],
    next_game := if ρ + 1 < upto then some (idOfs gc (ρ + 1) + i / 2 + 1)
      else none }

/-- Round-1 game at position `p` with its successor pointer (set as soon as
round 2 exists). -/
def specRound1 (teams : List Team) (gc byes upto p : Nat) : Game :=
  { popGame teams gc byes p with
    next_game := if 1 < upto then some (idOfs gc 1 + p / 2 + 1) else none }

/-- The games of round index `ρ` in a bracket with `upto` built rounds. -/
def specRound (teams : List Team) (gc byes upto ρ : Nat) : List Game :=
  if ρ = 0 then (List.range gc).map (specRound1 teams gc byes upto)
  else (List.range (roundSize gc ρ)).map (specLater gc upto ρ)

/-- The whole arena with `upto` built rounds: the rounds concatenated, so
the game with id `k+1` sits at position `k`. -/
def specArena (teams : List Team) (gc byes upto : Nat) : List Game :=
  ((List.range upto).map (specRound teams gc byes upto)).flatten

/-- The id lists of the rounds. -/
def specRounds (gc upto : Nat) : List (List Nat) :=
  (List.range upto).map (fun ρ =>
    (List.range (roundSize gc ρ)).map (fun i => idOfs gc ρ + i + 1))

/-- Effect of the `next_game` assignments of one later-round construction on
an existing game: predecessors `s+1 .. s+m` (the previous round) of the first
`j` new games get their successor pointer. -/
def updNext (s m gid0 j : Nat) (g : Game) : Game :=
  if s < g.id ∧ g.id ≤ s + m ∧ (g.id - s - 1) / 2 < j
  then { g with next_game := some (gid0 + (g.id - s - 1) / 2) } else g

/-- The `i`-th game created by one later-round construction. -/
def newGame (s round gc rgames row gid0 i : Nat) : Game :=
  { id := gid0 + i, round := round, teams := [], started := false,
    finished := false,
    col := 2 * ((round : Int) - 1),
    row := (row : Int) + ((gc / rgames) * i * 2 : Nat),
    previous_games := [s + i * 2 + 1, s + (i * 2 + 1) + 1],
    next_game := none }

/-! ## Arithmetic of `gameCount` -/

theorem gameCountFrom_le_aux (n gc : Nat) :
    n ≤ 2 * gameCountFrom n gc ∨ gameCountFrom n gc = gc ∧ ¬ 0 < gc := by
  induction gc using gameCountFrom.induct n with
  | case1 gc h ih =>
      rw [gameCountFrom, dif_pos h]
      rcases ih with h2 | ⟨_, h2⟩
      · exact Or.inl h2
      · omega
  | case2 gc h =>
      rw [gameCountFrom, dif_neg h]
      by_cases hp : 0 < gc
      · left; omega
      · right; exact ⟨rfl, hp⟩

theorem gameCountFrom_le (n gc : Nat) (hpos : 0 < gc) :
    n ≤ 2 * gameCountFrom n gc := by
  rcases gameCountFrom_le_aux n gc with h | ⟨_, h⟩
  · exact h
  · exact absurd hpos h

theorem gameCountFrom_chain (n gc : Nat) : ∃ j, gameCountFrom n gc = gc * 2 ^ j := by
  induction gc using gameCountFrom.induct n with
  | case1 gc h ih =>
      rw [gameCountFrom, dif_pos h]
      obtain ⟨j, hj⟩ := ih
      exact ⟨j + 1, by rw [hj]; ring⟩
  | case2 gc h =>
      exact ⟨0, by rw [gameCountFrom, dif_neg h]; ring⟩

theorem gameCountFrom_min (n gc : Nat) :
    ∀ g j, g = gc * 2 ^ j → n ≤ 2 * g → gameCountFrom n gc ≤ g := by
  induction gc using gameCountFrom.induct n with
  | case1 gc h ih =>
      intro g j hg hng
      rw [gameCountFrom, dif_pos h]
      rcases j with _ | j
      · simp at hg; omega
      · refine ih g j ?_ hng
        rw [hg]; ring
  | case2 gc h =>
      intro g j hg hng
      rw [gameCountFrom, dif_neg h]
      have h1 : 1 ≤ 2 ^ j := Nat.one_le_two_pow
      calc gc = gc * 1 := by ring
        _ ≤ gc * 2 ^ j := Nat.mul_le_mul_left gc h1
        _ = g := hg.symm

theorem gameCountFrom_lt (n gc : Nat) : gc < n → gameCountFrom n gc < n := by
  induction gc using gameCountFrom.induct n with
  | case1 gc h ih =>
      intro h1
      rw [gameCountFrom, dif_pos h]
      exact ih (by omega)
  | case2 gc h =>
      intro h1
      rw [gameCountFrom, dif_neg h]
      exact h1

theorem gameCount_le (n : Nat) : n ≤ 2 * gameCount n :=
  gameCountFrom_le n 2 (by omega)

theorem gameCount_pow (n : Nat) : ∃ j, gameCount n = 2 ^ (j + 1) := by
  obtain ⟨j, hj⟩ := gameCountFrom_chain n 2
  exact ⟨j, by rw [gameCount, hj, pow_succ]; ring⟩

theorem gameCount_min (n : Nat) :
    ∀ g j, g = 2 ^ (j + 1) → n ≤ 2 * g → gameCount n ≤ g := by
  intro g j hg hng
  refine gameCountFrom_min n 2 g j ?_ hng
  rw [hg, pow_succ]; ring

theorem gameCount_lt (n : Nat) (h : 4 ≤ n) : gameCount n < n := by
  exact gameCountFrom_lt n 2 (by omega)

theorem gameCount_two_le (n : Nat) : 2 ≤ gameCount n := by
  obtain ⟨j, hj⟩ := gameCount_pow n
  rw [hj]
  calc 2 = 2 ^ 1 := rfl
    _ ≤ 2 ^ (j + 1) := Nat.pow_le_pow_right (by omega) (by omega)

/-! ## Shape of the rounds list -/

theorem roundStep_rounds_len (gc round : Nat) (st : BuildSt) :
    (roundStep gc round st).rounds.length = st.rounds.length + 1 := by
  simp [roundStep]

theorem roundsIters_rounds_len (gc n : Nat) (st : BuildSt) :
    (roundsIters gc n st).rounds.length = st.rounds.length + n := by
  induction n with
  | zero => rfl
  | succ n ih => rw [roundsIters, roundStep_rounds_len, ih]; omega

theorem createBracket_rounds_len (teams : List Team) (h : 4 ≤ teams.length) :
    (createBracket teams).2.length = Nat.log2 (gameCount teams.length) + 1 := by
  unfold createBracket
  rw [if_neg (by omega)]
  simp only [roundsIters_rounds_len, List.length_cons, List.length_nil]
  omega

/-! ## Evaluation lemmas for the well-founded loops -/

theorem gameCountFrom_go (n gc : Nat) (h : 0 < gc ∧ 2 * gc < n) :
    gameCountFrom n gc = gameCountFrom n (2 * gc) := by
  rw [gameCountFrom, dif_pos h]

theorem gameCountFrom_stop (n gc : Nat) (h : ¬(0 < gc ∧ 2 * gc < n)) :
    gameCountFrom n gc = gc := by
  rw [gameCountFrom, dif_neg h]

theorem gameCount_four : gameCount 4 = 2 := by
  rw [gameCount, gameCountFrom_stop _ _ (by norm_num)]

theorem gameCount_five : gameCount 5 = 4 := by
  rw [gameCount, gameCountFrom_go _ _ (by norm_num),
    gameCountFrom_stop _ _ (by norm_num)]

theorem log2_two : Nat.log2 2 = 1 := by norm_num [Nat.log2]

theorem log2_four : Nat.log2 4 = 2 := by norm_num [Nat.log2]

theorem botMaxFrom_stop (count m : Nat) (h : ¬(0 < m ∧ m < count)) :
    botMaxFrom count m = m := by
  rw [botMaxFrom, dif_neg h]

/-- `createBracket` for at least four teams, with `game_count` and the round
exponent supplied as known values, so that concrete brackets evaluate by
kernel reduction. -/
theorem createBracket_eval (teams : List Team) (gc rc : Nat)
    (h4 : ¬ teams.length < 4) (hgc : gameCount teams.length = gc)
    (hrc : Nat.log2 gc = rc) :
    createBracket teams =
      ((roundsIters gc rc
        { games := populateRound1 teams gc (gc * 2 - teams.length),
          rounds := [(List.range gc).map (· + 1)],
          round_games := gc / 2, row := 1, game_id := gc + 1 }).games,
       (roundsIters gc rc
        { games := populateRound1 teams gc (gc * 2 - teams.length),
          rounds := [(List.range gc).map (· + 1)],
          round_games := gc / 2, row := 1, game_id := gc + 1 }).rounds) := by
  simp only [createBracket, if_neg h4, hgc, hrc, Nat.add_sub_cancel]

theorem cb4_eval : createBracket cexTeams =
    ((roundsIters 2 1
        { games := populateRound1 cexTeams 2 0,
          rounds := [(List.range 2).map (· + 1)],
          round_games := 1, row := 1, game_id := 3 }).games,
     (roundsIters 2 1
        { games := populateRound1 cexTeams 2 0,
          rounds := [(List.range 2).map (· + 1)],
          round_games := 1, row := 1, game_id := 3 }).rounds) := by
  have := createBracket_eval cexTeams 2 1 (by norm_num [cexTeams])
    (by rw [show cexTeams.length = 4 from rfl, gameCount_four]) log2_two
  simpa using this

theorem cb5_eval : createBracket cexTeams5 =
    ((roundsIters 4 2
        { games := populateRound1 cexTeams5 4 3,
          rounds := [(List.range 4).map (· + 1)],
          round_games := 2, row := 1, game_id := 5 }).games,
     (roundsIters 4 2
        { games := populateRound1 cexTeams5 4 3,
          rounds := [(List.range 4).map (· + 1)],
          round_games := 2, row := 1, game_id := 5 }).rounds) := by
  have := createBracket_eval cexTeams5 4 2 (by norm_num [cexTeams5])
    (by rw [show cexTeams5.length = 5 from rfl, gameCount_five]) log2_four
  simpa using this

/-! ## C1 — idempotence of `start()` -/

/-- C1 counterexample: on the bracket built from four real teams, game 1 is
Active after the first `start()` (both seats filled, `GameRoom` constructed),
yet a second invocation of `start()` constructs a second `GameRoom`: the two
invocations construct two rooms in total, not one — there is no guard. -/
theorem start_twice_two_rooms :
    ((startGame (createBracket cexTeams).1 1 8).bind fun r1 =>
      (startGame r1.1 1 8).map fun r2 => roomsIn r1.2 + roomsIn r2.2) = some 2 ∧
    (2 : Nat) ≠ 1 := by
  rw [cb4_eval]
  exact ⟨by decide, by decide⟩

/-- C1 (amended): `start()` carries no Active guard.  Every invocation on a
game whose two seats are filled with real (non-`Bye`) teams constructs
exactly one `GameRoom` and leaves the bracket state unchanged, so `k`
invocations construct `k` rooms; in particular a second invocation on an
already-Active game constructs a second room.  (Each game's match is created
only once in the driver's actual call pattern because a call that observes
fewer than two teams is a no-op and each predecessor invokes `start()` on the
successor exactly once.) -/
theorem start_unguarded_room_per_call (games : List Game) (gid fuel : Nat)
    (g : Game) (hfind : findGame games gid = some g) (hbye : g.byeTeam = none)
    (hteams : 2 ≤ g.teams.length) :
    startGame games gid (fuel + 1) =
      some (games, [StartEffect.summonTable gid g.round]) := by
  rw [startGame, hfind]
  simp only [hbye]
  rw [if_neg (by omega)]

/-- Witness for `start_unguarded_room_per_call` at a concrete one-game
arena. -/
theorem start_unguarded_room_per_call_w :
    startGame
      [⟨1, 1, [Team.mk "a" "b", Team.mk "c" "d"], false, false, -1, 0, [], some 3⟩]
      1 1 =
    some
      ([⟨1, 1, [Team.mk "a" "b", Team.mk "c" "d"], false, false, -1, 0, [], some 3⟩],
       [StartEffect.summonTable 1 1]) :=
  start_unguarded_room_per_call _ 1 0
    ⟨1, 1, [Team.mk "a" "b", Team.mk "c" "d"], false, false, -1, 0, [], some 3⟩
    (by decide) (by decide) (by decide)

/-! ## C2 — bracket sizing -/

/-- C2: for `N ≥ 4` teams, `game_count` is the least element of
`{2, 4, 8, …}` with `N ≤ 2·game_count`; `byes = 2·game_count − N`, so
`2·game_count = N + byes`; the number of rounds produced is
`⌊log₂ game_count⌋ + 1` and is nonzero; for `N < 4` the bracket is the empty
map with empty rounds; and the `canceled` flag holds exactly when `rounds` is
empty. -/
theorem bracket_sizing (teams : List Team) :
    (4 ≤ teams.length →
      teams.length ≤ 2 * gameCount teams.length ∧
      (∃ j, gameCount teams.length = 2 ^ (j + 1)) ∧
      (∀ g j, g = 2 ^ (j + 1) → teams.length ≤ 2 * g →
        gameCount teams.length ≤ g) ∧
      2 * gameCount teams.length =
        teams.length + (gameCount teams.length * 2 - teams.length) ∧
      (createBracket teams).2.length = Nat.log2 (gameCount teams.length) + 1 ∧
      (createBracket teams).2 ≠ []) ∧
    (teams.length < 4 → createBracket teams = ([], [])) ∧
    (canceled (createBracket teams).2 = true ↔ (createBracket teams).2 = []) := by
  refine ⟨fun h4 => ?_, fun hlt => ?_, ?_⟩
  · have hle := gameCount_le teams.length
    refine ⟨hle, gameCount_pow _, gameCount_min _, by omega,
      createBracket_rounds_len _ h4, fun hnil => ?_⟩
    have hlen := createBracket_rounds_len teams h4
    rw [hnil] at hlen
    simp at hlen
  · unfold createBracket
    rw [if_pos hlt]
  · simp [canceled, List.length_eq_zero]

/-- Witness for `bracket_sizing` at four teams and at the empty list. -/
theorem bracket_sizing_w :
    (createBracket cexTeams).2 ≠ [] ∧
    createBracket ([] : List Team) = ([], []) :=
  ⟨((bracket_sizing cexTeams).1 (by decide)).2.2.2.2.2,
   (bracket_sizing []).2.1 (by decide)⟩

/-! ## C7 — edge cases of team formation -/

theorem pool_alice_bots_eval :
    initialPool [("alice", "")] true (fun n => toString n) =
    ["alice", ":bot:0", ":bot:1", ":bot:2", ":bot:3", ":bot:4", ":bot:5", ":bot:6"] := by
  simp only [initialPool]
  rw [botMaxFrom_stop _ _ (by decide)]
  decide

/-- C7 counterexample: with a single signup but host `'bots'`, the pool is
filled to eight with synthetic players, so nobody is dropped — the claim's
"exactly one signup → that user dropped" fails on the code as stated. -/
theorem pickTeams_one_signup_bots_cex :
    (pickTeams [("alice", "")] true false (fun n => toString n) 0).map
      (fun r => r.2) = some none ∧
    (some (none : Option String) ≠ some (some "alice")) := by
  refine ⟨?_, by decide⟩
  simp only [pickTeams]
  rw [pool_alice_bots_eval]
  decide

/-- C7 (amended): when the pool is not bot-filled (host is not `'bots'`),
zero signups yield the empty team list with nobody dropped, and exactly one
signup (with a non-empty identifier and no self-partnering) yields the empty
team list with that user dropped. -/
theorem pickTeams_edge_no_bots (u p : String) (cp : Bool) (botName : Nat → String)
    (si : Nat) (hu : u ≠ "") (hp : p ≠ u) :
    pickTeams [] false cp botName si = some ([], none) ∧
    pickTeams [(u, p)] false cp botName si = some ([], some u) := by
  constructor
  · cases cp <;> simp [pickTeams, initialPool, mutualPass, pairUpRev]
  · cases cp <;>
      simp [pickTeams, initialPool, setAdd, mutualPass, hp, hu, Nat.mod_one,
        pairUpRev, List.erase_cons]

/-- Witness for `pickTeams_edge_no_bots`. -/
theorem pickTeams_edge_no_bots_w :
    pickTeams [] false true (fun _ => "bot") 0 = some ([], none) ∧
    pickTeams [("alice", "")] false true (fun _ => "bot") 0 =
      some ([], some "alice") :=
  pickTeams_edge_no_bots "alice" "" true (fun _ => "bot") 0 (by decide) (by decide)

/-! ## Team-formation lemmas -/

theorem usersOf_nil : usersOf [] = [] := rfl

theorem usersOf_cons (t : Team) (ts : List Team) :
    usersOf (t :: ts) = t.users ++ usersOf ts := rfl

theorem usersOf_append (a b : List Team) :
    usersOf (a ++ b) = usersOf a ++ usersOf b := by
  induction a with
  | nil => rfl
  | cons t ts ih => simp [usersOf_cons, ih]

theorem setAdd_nodup (s : List String) (x : String) (h : s.Nodup) :
    (setAdd s x).Nodup := by
  unfold setAdd
  by_cases hx : x ∈ s
  · rw [if_pos hx]
    exact h
  · rw [if_neg hx]
    simp [List.nodup_append, h, hx]

theorem mem_setAdd (s : List String) (x y : String) (h : y ∈ setAdd s x) :
    y ∈ s ∨ y = x := by
  unfold setAdd at h
  split at h
  · exact Or.inl h
  · simp at h
    exact h

theorem foldl_setAdd_nodup (entries : List (String × String))
    (init : List String) (h : init.Nodup) :
    (entries.foldl (fun s e => setAdd s e.1) init).Nodup := by
  induction entries generalizing init with
  | nil => exact h
  | cons e tl ih => exact ih _ (setAdd_nodup _ _ h)

theorem mem_foldl_setAdd (entries : List (String × String))
    (init : List String) (y : String)
    (h : y ∈ entries.foldl (fun s e => setAdd s e.1) init) :
    y ∈ init ∨ ∃ e ∈ entries, y = e.1 := by
  induction entries generalizing init with
  | nil => exact Or.inl h
  | cons e tl ih =>
      rcases ih _ h with h2 | ⟨e', he', hy⟩
      · rcases mem_setAdd _ _ _ h2 with h3 | h3
        · exact Or.inl h3
        · exact Or.inr ⟨e, by simp, h3⟩
      · exact Or.inr ⟨e', by simp [he'], hy⟩

theorem fillBots_nodup (botName : Nat → String) (n : Nat) (s : List String)
    (h : s.Nodup) : (fillBots botName n s).Nodup := by
  induction n with
  | zero => exact h
  | succ n ih => exact setAdd_nodup _ _ ih

theorem mem_fillBots (botName : Nat → String) (n : Nat) (s : List String)
    (y : String) (h : y ∈ fillBots botName n s) :
    y ∈ s ∨ ∃ i, y = ":bot:" ++ botName i := by
  induction n with
  | zero => exact Or.inl h
  | succ n ih =>
      rcases mem_setAdd _ _ _ h with h2 | h2
      · exact ih h2
      · exact Or.inr ⟨n, h2⟩

theorem initialPool_nodup (entries : List (String × String)) (hb : Bool)
    (botName : Nat → String) : (initialPool entries hb botName).Nodup := by
  unfold initialPool
  split
  · exact fillBots_nodup _ _ _ (foldl_setAdd_nodup _ _ List.nodup_nil)
  · exact foldl_setAdd_nodup _ _ List.nodup_nil

theorem bot_name_ne_empty (s : String) : (":bot:" ++ s) ≠ "" := by
  intro h
  have h2 := congrArg String.length h
  simp [String.length_append] at h2
  exact absurd h2.1 (by decide)

theorem initialPool_ne_empty (entries : List (String × String)) (hb : Bool)
    (botName : Nat → String) (hne : ∀ e ∈ entries, e.1 ≠ "") :
    ∀ y ∈ initialPool entries hb botName, y ≠ "" := by
  intro y hy
  unfold initialPool at hy
  split at hy
  · rcases mem_fillBots _ _ _ _ hy with h2 | ⟨i, h2⟩
    · rcases mem_foldl_setAdd _ _ _ h2 with h3 | ⟨e, he, h3⟩
      · simp at h3
      · exact h3 ▸ hne e he
    · exact h2 ▸ bot_name_ne_empty _
  · rcases mem_foldl_setAdd _ _ _ hy with h3 | ⟨e, he, h3⟩
    · simp at h3
    · exact h3 ▸ hne e he
theorem pairUpRev_isSome : ∀ l : List String, (∀ x ∈ l, x ≠ "") →
    l.length % 2 = 0 → ∃ ts, pairUpRev l = some ts := by
  intro l
  induction l using pairUpRev.induct with
  | case1 =>
      intro _ _
      exact ⟨[], rfl⟩
  | case2 a =>
      intro _ hev
      simp at hev
  | case3 a b rest hab =>
      intro hne _
      rcases hab with h | h
      · exact absurd h (hne a (by simp))
      · exact absurd h (hne b (by simp))
  | case4 a b rest hab ih =>
      intro hne hev
      obtain ⟨ts, hts⟩ := ih (fun x hx => hne x (by simp [hx]))
        (by simp only [List.length_cons] at hev ⊢; omega)
      refine ⟨Team.mk a b :: ts, ?_⟩
      rw [pairUpRev, if_neg hab, hts]
      rfl

theorem pairUpRev_users : ∀ (l : List String) (ts : List Team),
    pairUpRev l = some ts → usersOf ts = l := by
  intro l
  induction l using pairUpRev.induct with
  | case1 =>
      intro ts h
      rw [pairUpRev] at h
      cases h
      rfl
  | case2 a =>
      intro ts h
      rw [pairUpRev] at h
      cases h
  | case3 a b rest hab =>
      intro ts h
      rw [pairUpRev, if_pos hab] at h
      cases h
  | case4 a b rest hab ih =>
      intro ts h
      rw [pairUpRev, if_neg hab] at h
      obtain ⟨ts', hts', rfl⟩ := Option.map_eq_some'.mp h
      simp [usersOf_cons, Team.users, ih ts' hts']

theorem lookupPartner_mem (entries : List (String × String)) (u v : String)
    (h : lookupPartner entries u = some v) : (u, v) ∈ entries := by
  unfold lookupPartner at h
  obtain ⟨e, he, hev⟩ := Option.map_eq_some'.mp h
  have h1 : e.1 = u := by simpa using List.find?_some he
  have h2 : e ∈ entries := List.mem_of_find?_eq_some he
  have h3 : e = (u, v) := by
    cases e
    simp_all
  rwa [h3] at h2

theorem lookupPartner_of_mem (entries : List (String × String))
    (hnd : (entries.map Prod.fst).Nodup) (u p : String)
    (hm : (u, p) ∈ entries) : lookupPartner entries u = some p := by
  induction entries with
  | nil => cases hm
  | cons e tl ih =>
      simp only [List.map_cons, List.nodup_cons] at hnd
      by_cases he : e.1 = u
      · have h3 : e = (u, p) := by
          rcases List.mem_cons.mp hm with h | h
          · exact h.symm
          · exact absurd (he ▸ (List.mem_map.mpr ⟨(u, p), h, by simp [he]⟩)) hnd.1
        unfold lookupPartner
        rw [List.find?_cons_of_pos _ (by simp [he]), h3]
        rfl
      · have hm' : (u, p) ∈ tl := by
          rcases List.mem_cons.mp hm with h | h
          · exact absurd (by rw [← h]) he
          · exact h
        unfold lookupPartner
        rw [List.find?_cons_of_neg _ (by simp [he])]
        exact ih hnd.2 hm'
theorem mutualPass_rejects_subset (all : List (String × String)) :
    ∀ (rest : List (String × String)) (teams : List Team) (rejects : List String),
      ∀ x ∈ (mutualPass all rest teams rejects).2, x ∈ rejects := by
  intro rest teams rejects
  induction rest, teams, rejects using mutualPass.induct all with
  | case1 teams rejects =>
      intro x hx
      rw [mutualPass] at hx
      exact hx
  | case2 u p rest teams rejects hcond ih =>
      intro x hx
      rw [mutualPass, if_pos hcond] at hx
      exact List.erase_subset _ _ (List.erase_subset _ _ (ih x hx))
  | case3 u p rest teams rejects hcond ih =>
      intro x hx
      rw [mutualPass, if_neg hcond] at hx
      exact ih x hx

theorem mutualPass_rejects_nodup (all : List (String × String)) :
    ∀ (rest : List (String × String)) (teams : List Team) (rejects : List String),
      rejects.Nodup → (mutualPass all rest teams rejects).2.Nodup := by
  intro rest teams rejects
  induction rest, teams, rejects using mutualPass.induct all with
  | case1 teams rejects =>
      intro h
      rw [mutualPass]
      exact h
  | case2 u p rest teams rejects hcond ih =>
      intro h
      rw [mutualPass, if_pos hcond]
      exact ih ((h.erase u).erase p)
  | case3 u p rest teams rejects hcond ih =>
      intro h
      rw [mutualPass, if_neg hcond]
      exact ih h

theorem mutualPass_perm (all : List (String × String))
    (hself : ∀ e ∈ all, e.1 ≠ e.2) :
    ∀ (rest : List (String × String)) (teams : List Team) (rejects : List String),
      rejects.Nodup →
      (usersOf (mutualPass all rest teams rejects).1 ++
        (mutualPass all rest teams rejects).2).Perm
        (usersOf teams ++ rejects) := by
  intro rest teams rejects
  induction rest, teams, rejects using mutualPass.induct all with
  | case1 teams rejects =>
      intro _
      rw [mutualPass]
  | case2 u p rest teams rejects hcond ih =>
      intro hnd
      obtain ⟨hu, hpne, hp, hlook⟩ := hcond
      have hpu : p ≠ u := by
        intro he
        exact hself (p, u) (lookupPartner_mem all p u hlook) (by simp [he])
      have hpe : p ∈ rejects.erase u := (List.mem_erase_of_ne hpu).mpr hp
      have h1 : rejects.Perm (u :: rejects.erase u) := List.perm_cons_erase hu
      have h2 : (rejects.erase u).Perm (p :: (rejects.erase u).erase p) :=
        List.perm_cons_erase hpe
      have ihh := ih ((hnd.erase u).erase p)
      rw [mutualPass, if_pos ⟨hu, hpne, hp, hlook⟩]
      refine ihh.trans ?_
      rw [usersOf_append]
      simp only [usersOf_cons, usersOf_nil, Team.users, List.append_nil]
      have hassoc :
          (usersOf teams ++ [u, p]) ++ (rejects.erase u).erase p =
            usersOf teams ++ (u :: p :: (rejects.erase u).erase p) := by
        simp
      rw [hassoc]
      exact List.Perm.append_left _ (h1.trans (h2.cons u)).symm
  | case3 u p rest teams rejects hcond ih =>
      intro hnd
      rw [mutualPass, if_neg hcond]
      exact ih hnd

theorem mutualPass_teams_mem (all : List (String × String)) :
    ∀ (rest : List (String × String)) (teams : List Team) (rejects : List String),
      ∀ t ∈ (mutualPass all rest teams rejects).1,
        t ∈ teams ∨ ∃ u p, t = Team.mk u p ∧ (u, p) ∈ rest ∧
          lookupPartner all p = some u := by
  intro rest teams rejects
  induction rest, teams, rejects using mutualPass.induct all with
  | case1 teams rejects =>
      intro t ht
      rw [mutualPass] at ht
      exact Or.inl ht
  | case2 u p rest teams rejects hcond ih =>
      intro t ht
      rw [mutualPass, if_pos hcond] at ht
      rcases ih t ht with h | ⟨u', p', ht', hm', hl'⟩
      · rcases List.mem_append.mp h with h2 | h2
        · exact Or.inl h2
        · refine Or.inr ⟨u, p, by simpa using h2, by simp, hcond.2.2.2⟩
      · exact Or.inr ⟨u', p', ht', by simp [hm'], hl'⟩
  | case3 u p rest teams rejects hcond ih =>
      intro t ht
      rw [mutualPass, if_neg hcond] at ht
      rcases ih t ht with h | ⟨u', p', ht', hm', hl'⟩
      · exact Or.inl h
      · exact Or.inr ⟨u', p', ht', by simp [hm'], hl'⟩
/-- C8: with non-empty user identifiers every assertion of `pickTeams` is
unreachable — an odd pool always yields a sampled drop candidate, the pool is
even after the drop, and the pairing loop always pops two defined
identifiers; so team formation always produces a result. -/
theorem pickTeams_no_assert (entries : List (String × String))
    (hb cp : Bool) (botName : Nat → String) (si : Nat)
    (hne : ∀ e ∈ entries, e.1 ≠ "") :
    (pickTeams entries hb cp botName si).isSome = true := by
  have hpool_ne := initialPool_ne_empty entries hb botName hne
  have hpool_nd := initialPool_nodup entries hb botName
  simp only [pickTeams]
  set pool := initialPool entries hb botName with hpooldef
  obtain ⟨teams, rejects, htr⟩ :
      ∃ a b, (if cp then mutualPass entries entries [] pool
        else ([], pool)) = (a, b) := ⟨_, _, rfl⟩
  rw [htr]
  dsimp only
  have hfacts : (∀ x ∈ rejects, x ∈ pool) ∧ rejects.Nodup := by
    cases cp with
    | false =>
        rw [if_neg (by simp)] at htr
        obtain ⟨h1, h2⟩ := Prod.mk.injEq _ _ _ _ |>.mp htr
        subst h2
        exact ⟨fun x hx => hx, hpool_nd⟩
    | true =>
        rw [if_pos rfl] at htr
        obtain ⟨h1, h2⟩ := Prod.mk.injEq _ _ _ _ |>.mp htr
        subst h2
        exact ⟨mutualPass_rejects_subset entries entries [] pool,
          mutualPass_rejects_nodup entries entries [] pool hpool_nd⟩
  have hrne : ∀ y ∈ rejects, y ≠ "" := fun y hy => hpool_ne y (hfacts.1 y hy)
  by_cases hpar : rejects.length % 2 ≠ 0
  · rw [if_pos hpar]
    have hlen0 : 0 < rejects.length := by omega
    have hidx : si % rejects.length < rejects.length := Nat.mod_lt _ hlen0
    have hgetd : rejects.getD (si % rejects.length) "" =
        rejects[si % rejects.length] := List.getD_eq_getElem rejects "" hidx
    have hdrop_mem : rejects.getD (si % rejects.length) "" ∈ rejects := by
      rw [hgetd]
      exact List.getElem_mem hidx
    have hdrop_ne : rejects.getD (si % rejects.length) "" ≠ "" :=
      hrne _ hdrop_mem
    rw [if_neg hdrop_ne]
    have hlen' : (rejects.erase (rejects.getD (si % rejects.length) "")).length =
        rejects.length - 1 := List.length_erase_of_mem hdrop_mem
    rw [if_neg (by omega)]
    obtain ⟨ts, hts⟩ := pairUpRev_isSome
      (rejects.erase (rejects.getD (si % rejects.length) "")).reverse
      (fun x hx => hrne x
        (List.erase_subset _ _ (List.mem_reverse.mp hx)))
      (by rw [List.length_reverse]; omega)
    rw [hts]
    rfl
  · rw [if_neg hpar, if_neg hpar]
    obtain ⟨ts, hts⟩ := pairUpRev_isSome rejects.reverse
      (fun x hx => hrne x (List.mem_reverse.mp hx))
      (by rw [List.length_reverse]; omega)
    rw [hts]
    rfl
/-- C10: when no user declares themselves as their own partner, the teams
and the optional dropped player of a successful `pickTeams` run partition the
(possibly bot-filled) pool: together they are a permutation of the pool, and
the pool has no duplicates, so every identifier lands on exactly one team or
is the dropped player, and the dropped player is on no team. -/
theorem pickTeams_partition (entries : List (String × String)) (hb cp : Bool)
    (botName : Nat → String) (si : Nat)
    (hself : ∀ e ∈ entries, e.1 ≠ e.2)
    (ts : List Team) (d : Option String)
    (h : pickTeams entries hb cp botName si = some (ts, d)) :
    (usersOf ts ++ d.toList).Perm (initialPool entries hb botName) ∧
    (initialPool entries hb botName).Nodup := by
  have hpool_nd := initialPool_nodup entries hb botName
  refine ⟨?_, hpool_nd⟩
  simp only [pickTeams] at h
  set pool := initialPool entries hb botName with hpooldef
  obtain ⟨teams, rejects, htr⟩ :
      ∃ a b, (if cp then mutualPass entries entries [] pool
        else ([], pool)) = (a, b) := ⟨_, _, rfl⟩
  rw [htr] at h
  dsimp only at h
  have hperm : (usersOf teams ++ rejects).Perm pool := by
    cases cp with
    | false =>
        rw [if_neg (by simp)] at htr
        obtain ⟨h1, h2⟩ := Prod.mk.injEq _ _ _ _ |>.mp htr
        subst h1
        subst h2
        simp [usersOf_nil]
    | true =>
        rw [if_pos rfl] at htr
        obtain ⟨h1, h2⟩ := Prod.mk.injEq _ _ _ _ |>.mp htr
        subst h1
        subst h2
        have hmp := mutualPass_perm entries hself entries [] pool hpool_nd
        simpa [usersOf_nil] using hmp
  by_cases hpar : rejects.length % 2 ≠ 0
  · rw [if_pos hpar] at h
    have hlen0 : 0 < rejects.length := by omega
    have hidx : si % rejects.length < rejects.length := Nat.mod_lt _ hlen0
    have hdrop_mem : rejects.getD (si % rejects.length) "" ∈ rejects := by
      rw [List.getD_eq_getElem rejects "" hidx]
      exact List.getElem_mem hidx
    split at h
    · cases h
    · split at h
      · cases h
      · obtain ⟨ps, hps, heq⟩ := Option.map_eq_some'.mp h
        obtain ⟨h1, h2⟩ := Prod.mk.injEq _ _ _ _ |>.mp heq
        subst h1
        subst h2
        have hups : usersOf ps =
            (rejects.erase (rejects.getD (si % rejects.length) "")).reverse :=
          pairUpRev_users _ _ hps
        rw [usersOf_append, hups]
        simp only [Option.toList_some]
        have hstep :
            ((rejects.erase (rejects.getD (si % rejects.length) "")).reverse ++
              [rejects.getD (si % rejects.length) ""]).Perm rejects := by
          refine List.Perm.trans (List.Perm.append_right _
            (List.reverse_perm _)) ?_
          refine List.Perm.trans (List.perm_append_comm) ?_
          exact (List.perm_cons_erase hdrop_mem).symm
        rw [List.append_assoc]
        exact (List.Perm.append_left _ hstep).trans hperm
  · rw [if_neg hpar, if_neg hpar] at h
    obtain ⟨ps, hps, heq⟩ := Option.map_eq_some'.mp h
    obtain ⟨h1, h2⟩ := Prod.mk.injEq _ _ _ _ |>.mp heq
    subst h1
    subst h2
    have hups : usersOf ps = rejects.reverse := pairUpRev_users _ _ hps
    rw [usersOf_append, hups]
    simp only [Option.toList_none, List.append_nil]
    exact (List.Perm.append_left _ (List.reverse_perm _)).trans hperm
/-- C6: with partner choice enabled, the output team list is the
mutual-partner teams (in the discovery order of the walk over the shuffled
entries) followed by the arbitrarily formed pairs of the remaining pool;
every team of the mutual prefix consists of two users who each declared
exactly the other. -/
theorem pickTeams_mutual_first (entries : List (String × String)) (hb : Bool)
    (botName : Nat → String) (si : Nat)
    (hnd : (entries.map Prod.fst).Nodup)
    (ts : List Team) (d : Option String)
    (h : pickTeams entries hb true botName si = some (ts, d)) :
    ∃ rest,
      ts = (mutualPass entries entries []
        (initialPool entries hb botName)).1 ++ rest ∧
      (∀ t ∈ (mutualPass entries entries []
          (initialPool entries hb botName)).1,
        ∃ u p, t = Team.mk u p ∧ lookupPartner entries u = some p ∧
          lookupPartner entries p = some u) ∧
      (usersOf rest ++ d.toList).Perm
        (mutualPass entries entries [] (initialPool entries hb botName)).2 := by
  have hmut : ∀ t ∈ (mutualPass entries entries []
      (initialPool entries hb botName)).1,
      ∃ u p, t = Team.mk u p ∧ lookupPartner entries u = some p ∧
        lookupPartner entries p = some u := by
    intro t ht
    rcases mutualPass_teams_mem entries entries [] _ t ht with
      h0 | ⟨u, p, ht', hm', hl'⟩
    · simp at h0
    · exact ⟨u, p, ht', lookupPartner_of_mem entries hnd u p hm', hl'⟩
  simp only [pickTeams, if_true] at h
  set pool := initialPool entries hb botName with hpooldef
  set M := mutualPass entries entries [] pool with hMdef
  by_cases hpar : M.2.length % 2 ≠ 0
  · rw [if_pos hpar] at h
    have hlen0 : 0 < M.2.length := by omega
    have hidx : si % M.2.length < M.2.length := Nat.mod_lt _ hlen0
    have hdrop_mem : M.2.getD (si % M.2.length) "" ∈ M.2 := by
      rw [List.getD_eq_getElem M.2 "" hidx]
      exact List.getElem_mem hidx
    split at h
    · cases h
    · split at h
      · cases h
      · obtain ⟨ps, hps, heq⟩ := Option.map_eq_some'.mp h
        obtain ⟨h1, h2⟩ := Prod.mk.injEq _ _ _ _ |>.mp heq
        subst h1
        subst h2
        refine ⟨ps, rfl, hmut, ?_⟩
        have hups : usersOf ps =
            (M.2.erase (M.2.getD (si % M.2.length) "")).reverse :=
          pairUpRev_users _ _ hps
        rw [hups]
        simp only [Option.toList_some]
        refine List.Perm.trans (List.Perm.append_right _
          (List.reverse_perm _)) ?_
        refine List.Perm.trans (List.perm_append_comm) ?_
        exact (List.perm_cons_erase hdrop_mem).symm
  · rw [if_neg hpar, if_neg hpar] at h
    obtain ⟨ps, hps, heq⟩ := Option.map_eq_some'.mp h
    obtain ⟨h1, h2⟩ := Prod.mk.injEq _ _ _ _ |>.mp heq
    subst h1
    subst h2
    refine ⟨ps, rfl, hmut, ?_⟩
    have hups : usersOf ps = M.2.reverse := pairUpRev_users _ _ hps
    rw [hups]
    simp only [Option.toList_none, List.append_nil]
    exact List.reverse_perm _

/-- Witness for `pickTeams_no_assert`. -/
theorem pickTeams_no_assert_w :
    (pickTeams [("a", "b"), ("b", "a"), ("c", "")] false true
      (fun _ => "x") 0).isSome = true :=
  pickTeams_no_assert _ false true _ 0 (by decide)

/-- Witness for `pickTeams_partition`. -/
theorem pickTeams_partition_w :
    (usersOf [Team.mk "a" "b", Team.mk "d" "c"] ++
      (none : Option String).toList).Perm
      (initialPool [("a", "b"), ("b", "a"), ("c", ""), ("d", "")] false
        (fun _ => "x")) ∧
    (initialPool [("a", "b"), ("b", "a"), ("c", ""), ("d", "")] false
      (fun _ => "x")).Nodup :=
  pickTeams_partition [("a", "b"), ("b", "a"), ("c", ""), ("d", "")] false true
    (fun _ => "x") 0 (by decide) [Team.mk "a" "b", Team.mk "d" "c"] none
    (by decide)

/-- Witness for `pickTeams_mutual_first`. -/
theorem pickTeams_mutual_first_w :
    ∃ rest,
      [Team.mk "a" "b", Team.mk "d" "c"] =
        (mutualPass [("a", "b"), ("b", "a"), ("c", ""), ("d", "")]
          [("a", "b"), ("b", "a"), ("c", ""), ("d", "")] []
          (initialPool [("a", "b"), ("b", "a"), ("c", ""), ("d", "")] false
            (fun _ => "x"))).1 ++ rest ∧
      (∀ t ∈ (mutualPass [("a", "b"), ("b", "a"), ("c", ""), ("d", "")]
          [("a", "b"), ("b", "a"), ("c", ""), ("d", "")] []
          (initialPool [("a", "b"), ("b", "a"), ("c", ""), ("d", "")] false
            (fun _ => "x"))).1,
        ∃ u p, t = Team.mk u p ∧
          lookupPartner [("a", "b"), ("b", "a"), ("c", ""), ("d", "")] u =
            some p ∧
          lookupPartner [("a", "b"), ("b", "a"), ("c", ""), ("d", "")] p =
            some u) ∧
      (usersOf rest ++ (none : Option String).toList).Perm
        (mutualPass [("a", "b"), ("b", "a"), ("c", ""), ("d", "")]
          [("a", "b"), ("b", "a"), ("c", ""), ("d", "")] []
          (initialPool [("a", "b"), ("b", "a"), ("c", ""), ("d", "")] false
            (fun _ => "x"))).2 :=
  pickTeams_mutual_first [("a", "b"), ("b", "a"), ("c", ""), ("d", "")] false
    (fun _ => "x") 0 (by decide) [Team.mk "a" "b", Team.mk "d" "c"] none
    (by decide)

/-! ## Closed-form characterization of the built bracket -/
theorem popArena_length (teams : List Team) (gc byes n : Nat) :
    (popArena teams gc byes n).length = gc := by
  simp [popArena]

theorem populate_game_fresh (teams : List Team) (G : List Game)
    (index byes top bottom : Nat)
    (hg : G.getD index noGame = { id := index + 1, round := 1 }) :
    populate_game teams G index byes top bottom =
      (G.set index
        { id := index + 1, round := 1,
          teams := [teamAt teams top,
            if 0 < byes then Team.bye else teamAt teams bottom],
          started := decide (0 < byes), finished := decide (0 < byes),
          col := -1, row := (index : Int) * 2, previous_games := [],
          next_game := none },
       byes - 1, top + 1, if 0 < byes then bottom else bottom - 1) := by
  unfold populate_game
  rw [hg]
  by_cases hb : 0 < byes
  · simp [hb]
  · have hb0 : byes = 0 := by omega
    subst hb0
    simp

theorem popGameK_of_state (teams : List Team) (byes0 p k : Nat) :
    ({ id := p + 1, round := 1,
       teams := [teamAt teams k,
         if 0 < byes0 - k then Team.bye
         else teamAt teams (teams.length - 1 - (k - byes0))],
       started := decide (0 < byes0 - k), finished := decide (0 < byes0 - k),
       col := -1, row := (p : Int) * 2, previous_games := [],
       next_game := none } : Game) = popGameK teams byes0 p k := by
  simp only [popGameK, secondSeat]
  have hiff : 0 < byes0 - k ↔ k < byes0 := by omega
  rw [if_congr hiff rfl rfl, decide_eq_decide.mpr hiff]

theorem getD_set_ne (G : List Game) (i j : Nat) (x : Game) (h : i ≠ j)
    (hj : j < G.length) :
    (G.set i x).getD j noGame = G.getD j noGame := by
  rw [List.getD_eq_getElem _ _ (by simpa using hj),
    List.getElem_set, if_neg h, List.getD_eq_getElem _ _ hj]

theorem popArena_getD (teams : List Team) (gc byes n p : Nat) (hp : p < gc) :
    (popArena teams gc byes n).getD p noGame =
      (if p < n then popGameK teams byes p (2 * p)
       else if gc - n ≤ p then popGameK teams byes p (2 * (gc - 1 - p) + 1)
       else { id := p + 1, round := 1 }) := by
  rw [popArena, List.getD_eq_getElem _ _ (by simpa using hp)]
  rw [List.getElem_map]
  rw [List.getElem_range]
theorem popArena_zero (teams : List Team) (gc byes : Nat) :
    popArena teams gc byes 0 = initGames gc := by
  unfold popArena initGames
  refine List.map_congr_left ?_
  intro p hp
  rw [List.mem_range] at hp
  rw [if_neg (by omega), if_neg (by omega)]

theorem popArena_set_set (teams : List Team) (gc byes n : Nat)
    (h : 2 * (n + 1) ≤ gc) :
    ((popArena teams gc byes n).set n (popGameK teams byes n (2 * n))).set
      (gc - (1 + n)) (popGameK teams byes (gc - (1 + n)) (2 * n + 1)) =
    popArena teams gc byes (n + 1) := by
  refine List.ext_getElem ?_ ?_
  · simp [popArena]
  · intro p h1 h2
    have hp : p < gc := by simpa [popArena] using h2
    rw [List.getElem_set, List.getElem_set]
    simp only [popArena, List.getElem_map, List.getElem_range]
    by_cases hb : gc - (1 + n) = p
    · rw [if_pos hb]
      rw [if_neg (by omega), if_pos (by omega)]
      rw [← hb]
      congr 1
      omega
    · rw [if_neg hb]
      by_cases hc : n = p
      · subst hc
        rw [if_pos rfl, if_pos (by omega)]
      · rw [if_neg hc]
        by_cases hd : p < n
        · rw [if_pos hd, if_pos (by omega)]
        · rw [if_neg hd]
          by_cases he : gc - n ≤ p
          · rw [if_pos he, if_neg (by omega), if_pos (by omega)]
          · rw [if_neg he, if_neg (by omega), if_neg (by omega)]
theorem populateIters_spec (teams : List Team) (gc byes : Nat) :
    ∀ n, 2 * n ≤ gc →
    populateIters teams gc n (initGames gc, byes, 0, teams.length - 1) =
      (popArena teams gc byes n, byes - 2 * n, 2 * n,
        teams.length - 1 - (2 * n - byes)) := by
  intro n
  induction n with
  | zero =>
      intro _
      rw [populateIters, popArena_zero]
      simp
  | succ n ih =>
      intro h2n
      have hn : 2 * n ≤ gc := by omega
      rw [populateIters, ih hn]
      dsimp only
      have hg1 : (popArena teams gc byes n).getD n noGame =
          { id := n + 1, round := 1 } := by
        rw [popArena_getD teams gc byes n n (by omega),
          if_neg (by omega), if_neg (by omega)]
      rw [populate_game_fresh teams _ n _ _ _ hg1]
      dsimp only
      rw [popGameK_of_state teams byes n (2 * n)]
      have hg2 : (((popArena teams gc byes n).set n
          (popGameK teams byes n (2 * n)))).getD (gc - (1 + n)) noGame =
          { id := gc - (1 + n) + 1, round := 1 } := by
        rw [getD_set_ne _ _ _ _ (by omega) (by rw [popArena_length]; omega)]
        rw [popArena_getD teams gc byes n _ (by omega),
          if_neg (by omega), if_neg (by omega)]
      rw [populate_game_fresh teams _ (gc - (1 + n)) _ _ _ hg2]
      have e1 : byes - 2 * n - 1 = byes - (2 * n + 1) := by omega
      have e2 : (if 0 < byes - 2 * n
          then teams.length - 1 - (2 * n - byes)
          else teams.length - 1 - (2 * n - byes) - 1) =
          teams.length - 1 - (2 * n + 1 - byes) := by
        split_ifs <;> omega
      rw [e1, e2, popGameK_of_state teams byes (gc - (1 + n)) (2 * n + 1)]
      rw [popArena_set_set teams gc byes n h2n]
      simp only [Prod.mk.injEq]
      refine ⟨trivial, by omega, by omega, ?_⟩
      split_ifs <;> omega
theorem getD_map_range {α : Type} (f : Nat → α) (u ρ : Nat) (d : α)
    (h : ρ < u) : ((List.range u).map f).getD ρ d = f ρ := by
  rw [List.getD_eq_getElem _ _ (by simpa using h), List.getElem_map,
    List.getElem_range]

theorem roundSize_pow (e ρ : Nat) (h : ρ ≤ e) :
    roundSize (2 ^ e) ρ = 2 ^ (e - ρ) := by
  rw [roundSize, Nat.pow_div h (by omega)]

theorem roundSize_two_mul (e ρ : Nat) (h : ρ + 1 ≤ e) :
    2 * roundSize (2 ^ e) (ρ + 1) = roundSize (2 ^ e) ρ := by
  rw [roundSize_pow e ρ (by omega), roundSize_pow e (ρ + 1) h]
  have h1 : e - ρ = (e - (ρ + 1)) + 1 := by omega
  rw [h1, pow_succ]
  ring

theorem roundSize_last (e : Nat) : roundSize (2 ^ e) e = 1 := by
  rw [roundSize_pow e e (by omega)]
  simp

theorem roundSize_pos (e ρ : Nat) (h : ρ ≤ e) : 0 < roundSize (2 ^ e) ρ := by
  rw [roundSize_pow e ρ h]
  exact Nat.pos_pow_of_pos _ (by omega)

theorem div_roundSize (e ρ : Nat) (h : ρ ≤ e) :
    2 ^ e / roundSize (2 ^ e) ρ = 2 ^ ρ := by
  rw [roundSize_pow e ρ h, Nat.pow_div (by omega) (by omega)]
  congr 1
  omega

theorem idOfs_mono (gc : Nat) (ρ ρ' : Nat) (h : ρ ≤ ρ') :
    idOfs gc ρ ≤ idOfs gc ρ' := by
  induction ρ' with
  | zero =>
      have : ρ = 0 := by omega
      subst this
      exact le_refl _
  | succ k ih =>
      by_cases hk : ρ = k + 1
      · subst hk
        exact le_refl _
      · have := ih (by omega)
        rw [idOfs]
        omega
theorem updNext_step (s m gid0 j : Nat) (h2j : 2 * (j + 1) ≤ m) (g : Game) :
    (fun g' : Game => if g'.id = s + (j * 2 + 1) + 1
        then { g' with next_game := some (gid0 + j) } else g')
      ((fun g' : Game => if g'.id = s + j * 2 + 1
        then { g' with next_game := some (gid0 + j) } else g')
        (updNext s m gid0 j g)) = updNext s m gid0 (j + 1) g := by
  dsimp only [updNext]
  by_cases h1 : s < g.id ∧ g.id ≤ s + m ∧ (g.id - s - 1) / 2 < j
  · rw [if_pos h1]
    dsimp only
    rw [if_neg (show ¬ g.id = s + j * 2 + 1 by omega)]
    dsimp only
    rw [if_neg (show ¬ g.id = s + (j * 2 + 1) + 1 by omega),
      if_pos (by omega)]
  · rw [if_neg h1]
    by_cases h2 : g.id = s + j * 2 + 1
    · rw [if_pos h2]
      dsimp only
      rw [if_neg (show ¬ g.id = s + (j * 2 + 1) + 1 by omega),
        if_pos (by omega)]
      have hj : gid0 + j = gid0 + (g.id - s - 1) / 2 := by omega
      rw [hj]
    · rw [if_neg h2]
      by_cases h3 : g.id = s + (j * 2 + 1) + 1
      · rw [if_pos h3, if_pos (by omega)]
        have hj : gid0 + j = gid0 + (g.id - s - 1) / 2 := by omega
        rw [hj]
      · rw [if_neg h3, if_neg (by omega)]

theorem setNextGame_append (A B : List Game) (p nid : Nat) :
    setNextGame (A ++ B) p nid = setNextGame A p nid ++ setNextGame B p nid := by
  unfold setNextGame
  exact List.map_append _ _ _

theorem setNext_twice_updNext (s m gid0 j : Nat) (games0 : List Game)
    (h2j : 2 * (j + 1) ≤ m) :
    setNextGame (setNextGame (games0.map (updNext s m gid0 j))
        (s + j * 2 + 1) (gid0 + j)) (s + (j * 2 + 1) + 1) (gid0 + j) =
      games0.map (updNext s m gid0 (j + 1)) := by
  unfold setNextGame
  rw [List.map_map, List.map_map]
  exact List.map_congr_left (fun g _ => updNext_step s m gid0 j h2j g)

theorem setNext_twice_news (s round gc rgames row gid0 j : Nat)
    (h2j : 2 * (j + 1) ≤ m) (hlt : s + m < gid0) :
    setNextGame (setNextGame
        ((List.range j).map (newGame s round gc rgames row gid0))
        (s + j * 2 + 1) (gid0 + j)) (s + (j * 2 + 1) + 1) (gid0 + j) =
      (List.range j).map (newGame s round gc rgames row gid0) := by
  unfold setNextGame
  rw [List.map_map, List.map_map]
  refine List.map_congr_left ?_
  intro i hi
  rw [List.mem_range] at hi
  dsimp only [Function.comp, newGame]
  rw [if_neg (show ¬ gid0 + i = s + j * 2 + 1 by omega)]
  dsimp only
  rw [if_neg (show ¬ gid0 + i = s + (j * 2 + 1) + 1 by omega)]

theorem buildIters_spec (s m round gc rgames row : Nat) :
    ∀ (j : Nat) (games0 : List Game) (ids0 : List Nat) (gid0 : Nat),
      2 * j ≤ m → s + m < gid0 →
      buildIters ((List.range m).map (fun q => s + q + 1)) round gc rgames row j
        (games0, ids0, gid0) =
      (games0.map (updNext s m gid0 j) ++
         (List.range j).map (newGame s round gc rgames row gid0),
       ids0 ++ (List.range j).map (fun i => gid0 + i),
       gid0 + j) := by
  intro j
  induction j with
  | zero =>
      intro games0 ids0 gid0 _ _
      rw [buildIters]
      simp only [List.range_zero, List.map_nil, List.append_nil, Nat.add_zero]
      have hmap : games0.map (updNext s m gid0 0) = games0 := by
        calc games0.map (updNext s m gid0 0)
            = games0.map id := List.map_congr_left (by
              intro g _
              unfold updNext
              rw [if_neg (by omega)]
              rfl)
          _ = games0 := List.map_id _
      rw [hmap]
  | succ j ih =>
      intro games0 ids0 gid0 h2j hlt
      rw [buildIters, ih games0 ids0 gid0 (by omega) hlt]
      dsimp only
      rw [getD_map_range _ _ _ _ (by omega), getD_map_range _ _ _ _ (by omega)]
      rw [setNextGame_append, setNextGame_append]
      rw [setNext_twice_updNext s m gid0 j games0 h2j,
        setNext_twice_news s round gc rgames row gid0 j h2j hlt]
      simp only [List.range_succ, List.map_append, List.map_cons,
        List.map_nil, List.append_assoc, Prod.mk.injEq]
      exact ⟨by trivial, by trivial, by omega⟩
theorem roundSize_zero (gc : Nat) : roundSize gc 0 = gc := by
  simp [roundSize]

theorem idOfs_one (gc : Nat) : idOfs gc 1 = gc := by
  rw [idOfs, idOfs, roundSize_zero]
  omega

theorem specRound_map_updNext (teams : List Team) (byes e n ρ : Nat)
    (hn : n + 1 ≤ e) (hρ : ρ ≤ n) :
    (specRound teams (2 ^ e) byes (n + 1) ρ).map
      (updNext (idOfs (2 ^ e) n) (roundSize (2 ^ e) n)
        (idOfs (2 ^ e) (n + 1) + 1) (roundSize (2 ^ e) (n + 1))) =
    specRound teams (2 ^ e) byes (n + 2) ρ := by
  have hrs2 : 2 * roundSize (2 ^ e) (n + 1) = roundSize (2 ^ e) n :=
    roundSize_two_mul e n hn
  have hofs : idOfs (2 ^ e) (n + 1) = idOfs (2 ^ e) n + roundSize (2 ^ e) n :=
    rfl
  unfold specRound
  by_cases h0 : ρ = 0
  · subst h0
    rw [if_pos rfl, if_pos rfl, List.map_map]
    refine List.map_congr_left ?_
    intro p hp
    rw [List.mem_range] at hp
    dsimp only [Function.comp]
    by_cases hn0 : n = 0
    · subst hn0
      have hgc1 : idOfs (2 ^ e) 1 = 2 ^ e := idOfs_one _
      have hgc0 : idOfs (2 ^ e) 0 = 0 := rfl
      have hrs0 : roundSize (2 ^ e) 0 = 2 ^ e := roundSize_zero _
      unfold updNext specRound1
      dsimp only
      have hid : (popGame teams (2 ^ e) byes p).id = p + 1 := rfl
      rw [if_neg (show ¬ (1:Nat) < 1 by omega)]
      rw [hid, hgc0, hrs0]
      rw [if_pos (by constructor; omega; constructor; omega; omega)]
      rw [if_pos (show (1:Nat) < 2 by omega)]
      simp only [Game.mk.injEq, Option.some.injEq, true_and, and_true]
      omega
    · -- n ≥ 1 : round-1 ids are at most idOfs n, so updNext leaves them alone
      have hle : idOfs (2 ^ e) 1 ≤ idOfs (2 ^ e) n := idOfs_mono _ _ _ (by omega)
      have hgc1 : idOfs (2 ^ e) 1 = 2 ^ e := idOfs_one _
      unfold updNext specRound1
      dsimp only
      have hid : (popGame teams (2 ^ e) byes p).id = p + 1 := rfl
      rw [hid]
      rw [if_pos (show 1 < n + 1 by omega), if_pos (show 1 < n + 2 by omega)]
      rw [if_neg (by omega)]
  · rw [if_neg h0, if_neg h0, List.map_map]
    refine List.map_congr_left ?_
    intro i hi
    rw [List.mem_range] at hi
    dsimp only [Function.comp]
    by_cases hρn : ρ = n
    · subst hρn
      unfold updNext specLater
      dsimp only
      rw [if_neg (show ¬ ρ + 1 < ρ + 1 by omega)]
      rw [if_pos (by refine ⟨by omega, by omega, ?_⟩; omega)]
      rw [if_pos (show ρ + 1 < ρ + 2 by omega)]
      simp only [Game.mk.injEq, Option.some.injEq, true_and, and_true]
      omega
    · -- ρ < n: ids below the previous round, unchanged
      have hle : idOfs (2 ^ e) (ρ + 1) ≤ idOfs (2 ^ e) n :=
        idOfs_mono _ _ _ (by omega)
      have hofsρ : idOfs (2 ^ e) (ρ + 1) =
          idOfs (2 ^ e) ρ + roundSize (2 ^ e) ρ := rfl
      unfold updNext specLater
      dsimp only
      rw [if_pos (show ρ + 1 < n + 1 by omega), if_pos (show ρ + 1 < n + 2 by omega)]
      rw [if_neg (by omega)]
theorem newGame_spec (e n i : Nat) (hn : n + 1 ≤ e)
    (_hi : i < roundSize (2 ^ e) (n + 1)) :
    newGame (idOfs (2 ^ e) n) (n + 2) (2 ^ e) (roundSize (2 ^ e) (n + 1))
      (2 ^ (n + 1) - 1) (idOfs (2 ^ e) (n + 1) + 1) i =
    specLater (2 ^ e) (n + 2) (n + 1) i := by
  have hofs : idOfs (2 ^ e) (n + 1) = idOfs (2 ^ e) n + roundSize (2 ^ e) n :=
    rfl
  unfold newGame specLater
  rw [div_roundSize e (n + 1) hn]
  simp only [Game.mk.injEq, true_and, and_true]
  refine ⟨by omega, by push_cast; ring, ?_, ?_, ?_⟩
  · rw [← Nat.cast_add, Nat.cast_inj]
    have h2 : (2 : Nat) ^ (n + 1 + 1) = 2 * 2 ^ (n + 1) := by
      rw [pow_succ]
      ring
    have h3 : (2 : Nat) ^ (n + 1 + 1) * i = 2 * (2 ^ (n + 1) * i) := by
      rw [h2]
      ring
    omega
  · have hmm : n + 1 - 1 = n := by omega
    rw [hmm]
    simp only [List.cons.injEq, and_true, List.nil_eq]
    omega
  · rw [if_neg (by omega)]
theorem roundStep_spec (teams : List Team) (byes e n : Nat) (hn : n + 1 ≤ e) :
    roundStep (2 ^ e) (n + 2)
      { games := specArena teams (2 ^ e) byes (n + 1),
        rounds := specRounds (2 ^ e) (n + 1),
        round_games := roundSize (2 ^ e) (n + 1),
        row := 2 ^ (n + 1) - 1,
        game_id := idOfs (2 ^ e) (n + 1) + 1 } =
      { games := specArena teams (2 ^ e) byes (n + 2),
        rounds := specRounds (2 ^ e) (n + 2),
        round_games := roundSize (2 ^ e) (n + 2),
        row := 2 ^ (n + 2) - 1,
        game_id := idOfs (2 ^ e) (n + 2) + 1 } := by
  have hofs : idOfs (2 ^ e) (n + 1) = idOfs (2 ^ e) n + roundSize (2 ^ e) n :=
    rfl
  have hofs2 : idOfs (2 ^ e) (n + 2) =
      idOfs (2 ^ e) (n + 1) + roundSize (2 ^ e) (n + 1) := rfl
  have hrs2 : 2 * roundSize (2 ^ e) (n + 1) = roundSize (2 ^ e) n :=
    roundSize_two_mul e n hn
  unfold roundStep
  dsimp only
  have hprev : (specRounds (2 ^ e) (n + 1)).getD (n + 2 - 2) [] =
      (List.range (roundSize (2 ^ e) n)).map
        (fun q => idOfs (2 ^ e) n + q + 1) := by
    have hn2 : n + 2 - 2 = n := by omega
    rw [hn2]
    unfold specRounds
    exact getD_map_range _ _ _ _ (by omega)
  rw [hprev]
  rw [buildIters_spec (idOfs (2 ^ e) n) (roundSize (2 ^ e) n) (n + 2) (2 ^ e)
    (roundSize (2 ^ e) (n + 1)) (2 ^ (n + 1) - 1) (roundSize (2 ^ e) (n + 1))
    (specArena teams (2 ^ e) byes (n + 1)) [] (idOfs (2 ^ e) (n + 1) + 1)
    (by omega) (by omega)]
  dsimp only
  simp only [BuildSt.mk.injEq]
  refine ⟨?_, ?_, ?_, ?_, by omega⟩
  · -- games
    unfold specArena
    rw [List.map_flatten, List.map_map]
    have hblocks : (List.range (n + 1)).map
        ((List.map (updNext (idOfs (2 ^ e) n) (roundSize (2 ^ e) n)
          (idOfs (2 ^ e) (n + 1) + 1) (roundSize (2 ^ e) (n + 1)))) ∘
          (specRound teams (2 ^ e) byes (n + 1))) =
        (List.range (n + 1)).map (specRound teams (2 ^ e) byes (n + 2)) := by
      refine List.map_congr_left ?_
      intro ρ hρ
      rw [List.mem_range] at hρ
      exact specRound_map_updNext teams byes e n ρ hn (by omega)
    rw [hblocks]
    have hnews : (List.range (roundSize (2 ^ e) (n + 1))).map
        (newGame (idOfs (2 ^ e) n) (n + 2) (2 ^ e) (roundSize (2 ^ e) (n + 1))
          (2 ^ (n + 1) - 1) (idOfs (2 ^ e) (n + 1) + 1)) =
        specRound teams (2 ^ e) byes (n + 2) (n + 1) := by
      unfold specRound
      rw [if_neg (by omega)]
      refine List.map_congr_left ?_
      intro i hi
      rw [List.mem_range] at hi
      exact newGame_spec e n i hn hi
    rw [hnews]
    have hr2 : List.range (n + 2) = List.range (n + 1) ++ [n + 1] :=
      List.range_succ (n + 1)
    have hr1 : List.range (n + 1) = List.range n ++ [n] :=
      List.range_succ n
    rw [hr1, hr2, hr1, List.map_append, List.map_append, List.map_append,
      List.flatten_append, List.flatten_append, List.flatten_append]
    simp [List.append_assoc]
  · -- rounds
    unfold specRounds
    have hr2 : List.range (n + 2) = List.range (n + 1) ++ [n + 1] :=
      List.range_succ (n + 1)
    rw [hr2, List.map_append, List.map_cons, List.map_nil]
    congr 1
    simp only [List.nil_append]
    congr 1
    refine List.map_congr_left ?_
    intro i hi
    omega
  · -- round_games
    unfold roundSize
    rw [Nat.div_div_eq_div_mul]
    congr 1
  · -- row
    have h2 : (2 : Nat) ^ (n + 2) = 2 * 2 ^ (n + 1) := by
      rw [pow_succ]
      ring
    have hn21 : n + 2 - 1 = n + 1 := by omega
    rw [hn21]
    have h1 : (1 : Nat) ≤ 2 ^ (n + 1) := Nat.one_le_two_pow
    omega
theorem log2_pow (e : Nat) : Nat.log2 (2 ^ e) = e := by
  rw [Nat.log2_eq_log_two]
  exact Nat.log_pow (by omega) _

theorem roundsIters_spec (teams : List Team) (byes e : Nat) :
    ∀ n, n ≤ e →
    roundsIters (2 ^ e) n
      { games := specArena teams (2 ^ e) byes 1,
        rounds := specRounds (2 ^ e) 1,
        round_games := roundSize (2 ^ e) 1,
        row := 2 ^ 1 - 1,
        game_id := idOfs (2 ^ e) 1 + 1 } =
      { games := specArena teams (2 ^ e) byes (n + 1),
        rounds := specRounds (2 ^ e) (n + 1),
        round_games := roundSize (2 ^ e) (n + 1),
        row := 2 ^ (n + 1) - 1,
        game_id := idOfs (2 ^ e) (n + 1) + 1 } := by
  intro n
  induction n with
  | zero =>
      intro _
      rw [roundsIters]
  | succ n ih =>
      intro hn
      rw [roundsIters, ih (by omega), roundStep_spec teams byes e n (by omega)]

theorem populateRound1_spec (teams : List Team) (e byes : Nat) (he : 1 ≤ e) :
    populateRound1 teams (2 ^ e) byes = specArena teams (2 ^ e) byes 1 := by
  have heven : 2 ^ e = 2 * (2 ^ e / 2) := by
    have h1 : (2 : Nat) ^ e = 2 * 2 ^ (e - 1) := by
      rw [← pow_succ']
      congr 1
      omega
    omega
  unfold populateRound1
  rw [populateIters_spec teams (2 ^ e) byes (2 ^ e / 2) (by omega)]
  dsimp only
  unfold specArena
  rw [show List.range 1 = [0] from rfl]
  simp only [List.map_cons, List.map_nil, List.flatten_cons,
    List.flatten_nil, List.append_nil]
  unfold popArena specRound
  rw [if_pos rfl]
  refine List.map_congr_left ?_
  intro p hp
  rw [List.mem_range] at hp
  by_cases h : p < 2 ^ e / 2
  · rw [if_pos h]
    unfold specRound1 popGame topAt
    rw [if_pos h, if_neg (show ¬ (1:Nat) < 1 by omega)]
    rfl
  · rw [if_neg h, if_pos (by omega)]
    unfold specRound1 popGame topAt
    rw [if_neg h, if_neg (show ¬ (1:Nat) < 1 by omega)]
    rfl

theorem createBracket_spec (teams : List Team) (h4 : 4 ≤ teams.length) :
    createBracket teams =
      (specArena teams (gameCount teams.length)
        (gameCount teams.length * 2 - teams.length)
        (Nat.log2 (gameCount teams.length) + 1),
       specRounds (gameCount teams.length)
        (Nat.log2 (gameCount teams.length) + 1)) := by
  obtain ⟨j, hj⟩ := gameCount_pow teams.length
  have hgc : gameCount teams.length = 2 ^ (j + 1) := hj
  have hlog : Nat.log2 (gameCount teams.length) = j + 1 := by
    rw [hgc, log2_pow]
  rw [hlog, hgc]
  rw [createBracket_eval teams (2 ^ (j + 1)) (j + 1) (by omega) hgc
    (log2_pow (j + 1))]
  have hinit :
      ({ games := populateRound1 teams (2 ^ (j + 1)) (2 ^ (j + 1) * 2 - teams.length),
         rounds := [(List.range (2 ^ (j + 1))).map (· + 1)],
         round_games := 2 ^ (j + 1) / 2, row := 1,
         game_id := 2 ^ (j + 1) + 1 } : BuildSt) =
      ({ games := specArena teams (2 ^ (j + 1)) (2 ^ (j + 1) * 2 - teams.length) 1,
         rounds := specRounds (2 ^ (j + 1)) 1,
         round_games := roundSize (2 ^ (j + 1)) 1,
         row := 2 ^ 1 - 1,
         game_id := idOfs (2 ^ (j + 1)) 1 + 1 } : BuildSt) := by
    simp only [BuildSt.mk.injEq]
    refine ⟨populateRound1_spec teams (j + 1) _ (by omega), ?_, rfl, rfl, ?_⟩
    · unfold specRounds
      rw [show List.range 1 = [0] from rfl]
      simp only [List.map_cons, List.map_nil, roundSize_zero]
      congr 1
      refine List.map_congr_left ?_
      intro i _
      show i + 1 = idOfs (2 ^ (j + 1)) 0 + i + 1
      rw [show idOfs (2 ^ (j + 1)) 0 = 0 from rfl]
      omega
    · rw [idOfs_one]
  rw [hinit, roundsIters_spec teams _ (j + 1) (j + 1) (le_refl _)]
theorem specRound_length (teams : List Team) (gc byes upto ρ : Nat) :
    (specRound teams gc byes upto ρ).length = roundSize gc ρ := by
  unfold specRound
  by_cases h : ρ = 0
  · subst h
    simp [roundSize_zero]
  · rw [if_neg h]
    simp

theorem flatten_range_length (f : Nat → List Game)
    (sz : Nat → Nat) (hsz : ∀ ρ, (f ρ).length = sz ρ) (ofs : Nat → Nat)
    (hofs0 : ofs 0 = 0) (hofsS : ∀ ρ, ofs (ρ + 1) = ofs ρ + sz ρ) :
    ∀ u, (((List.range u).map f).flatten).length = ofs u := by
  intro u
  induction u with
  | zero => simp [hofs0]
  | succ u ih =>
      rw [List.range_succ, List.map_append, List.flatten_append,
        List.length_append, ih, hofsS]
      simp [hsz]

theorem flatten_range_getD (f : Nat → List Game)
    (sz : Nat → Nat) (hsz : ∀ ρ, (f ρ).length = sz ρ) (ofs : Nat → Nat)
    (hofs0 : ofs 0 = 0) (hofsS : ∀ ρ, ofs (ρ + 1) = ofs ρ + sz ρ)
    (hmono : ∀ ρ ρ', ρ ≤ ρ' → ofs ρ ≤ ofs ρ') :
    ∀ u ρ i, ρ < u → i < sz ρ →
      (((List.range u).map f).flatten).getD (ofs ρ + i) noGame =
        (f ρ).getD i noGame := by
  intro u
  induction u with
  | zero => intro ρ i h _; omega
  | succ u ih =>
      intro ρ i hρ hi
      rw [List.range_succ, List.map_append, List.flatten_append]
      by_cases hu : ρ < u
      · have hlen : (((List.range u).map f).flatten).length = ofs u :=
          flatten_range_length f sz hsz ofs hofs0 hofsS u
        have hidx : ofs ρ + i < ofs u := by
          have h1 : ofs (ρ + 1) ≤ ofs u := hmono _ _ (by omega)
          have h2 := hofsS ρ
          omega
        rw [List.getD_eq_getElem _ _ (by
          rw [List.length_append, hlen]
          omega)]
        rw [List.getElem_append, dif_pos (by rw [hlen]; omega)]
        rw [← List.getD_eq_getElem _ noGame (by rw [hlen]; omega)]
        exact ih ρ i (by omega) hi
      · have hρu : ρ = u := by omega
        subst hρu
        have hlen : (((List.range ρ).map f).flatten).length = ofs ρ :=
          flatten_range_length f sz hsz ofs hofs0 hofsS ρ
        rw [List.getD_eq_getElem _ _ (by
          rw [List.length_append, hlen]
          simp only [List.map_cons, List.map_nil, List.flatten_cons,
            List.flatten_nil, List.append_nil]
          rw [hsz]
          omega)]
        rw [List.getElem_append, dif_neg (by rw [hlen]; omega)]
        simp only [List.map_cons, List.map_nil, List.flatten_cons,
          List.flatten_nil, List.append_nil]
        have hsub : ofs ρ + i - (((List.range ρ).map f).flatten).length = i := by
          rw [hlen]
          omega
        simp only [hsub]
        rw [← List.getD_eq_getElem _ noGame (by rw [hsz]; omega)]

theorem idOfs_succ_eq (gc ρ : Nat) :
    idOfs gc (ρ + 1) = idOfs gc ρ + roundSize gc ρ := rfl

theorem specArena_length (teams : List Team) (gc byes upto : Nat) :
    (specArena teams gc byes upto).length = idOfs gc upto := by
  unfold specArena
  exact flatten_range_length _ (roundSize gc)
    (specRound_length teams gc byes upto) (idOfs gc) rfl
    (idOfs_succ_eq gc) upto

theorem specArena_getD (teams : List Team) (gc byes upto ρ i : Nat)
    (hρ : ρ < upto) (hi : i < roundSize gc ρ) :
    (specArena teams gc byes upto).getD (idOfs gc ρ + i) noGame =
      (specRound teams gc byes upto ρ).getD i noGame := by
  unfold specArena
  exact flatten_range_getD _ (roundSize gc)
    (specRound_length teams gc byes upto) (idOfs gc) rfl
    (idOfs_succ_eq gc) (idOfs_mono gc) upto ρ i hρ hi

theorem specRound_getD_zero (teams : List Team) (gc byes upto p : Nat)
    (hp : p < gc) :
    (specRound teams gc byes upto 0).getD p noGame =
      specRound1 teams gc byes upto p := by
  unfold specRound
  rw [if_pos rfl]
  rw [List.getD_eq_getElem _ _ (by simpa using hp), List.getElem_map,
    List.getElem_range]

theorem specRound_getD_later (teams : List Team) (gc byes upto ρ i : Nat)
    (hρ : ρ ≠ 0) (hi : i < roundSize gc ρ) :
    (specRound teams gc byes upto ρ).getD i noGame =
      specLater gc upto ρ i := by
  unfold specRound
  rw [if_neg hρ]
  rw [List.getD_eq_getElem _ _ (by simpa using hi), List.getElem_map,
    List.getElem_range]

theorem idOfs_decompose (gc : Nat) :
    ∀ upto k, k < idOfs gc upto →
      ∃ ρ i, ρ < upto ∧ i < roundSize gc ρ ∧ k = idOfs gc ρ + i := by
  intro upto
  induction upto with
  | zero =>
      intro k hk
      rw [show idOfs gc 0 = 0 from rfl] at hk
      omega
  | succ u ih =>
      intro k hk
      by_cases hu : k < idOfs gc u
      · obtain ⟨ρ, i, h1, h2, h3⟩ := ih k hu
        exact ⟨ρ, i, by omega, h2, h3⟩
      · refine ⟨u, k - idOfs gc u, by omega, ?_, by omega⟩
        rw [idOfs_succ_eq] at hk
        omega
theorem specRounds_length (gc upto : Nat) : (specRounds gc upto).length = upto := by
  simp [specRounds]

theorem specRounds_getD (gc upto ρ : Nat) (h : ρ < upto) :
    (specRounds gc upto).getD ρ [] =
      (List.range (roundSize gc ρ)).map (fun i => idOfs gc ρ + i + 1) :=
  getD_map_range _ _ _ _ h

theorem roundIds_getD (gc ρ i : Nat) (h : i < roundSize gc ρ) :
    ((List.range (roundSize gc ρ)).map (fun q => idOfs gc ρ + q + 1)).getD i 0 =
      idOfs gc ρ + i + 1 :=
  getD_map_range _ _ _ _ h

theorem specArena_getD_zero (teams : List Team) (gc byes upto p : Nat)
    (h0 : 0 < upto) (hp : p < gc) :
    (specArena teams gc byes upto).getD p noGame =
      specRound1 teams gc byes upto p := by
  have h := specArena_getD teams gc byes upto 0 p h0
    (by rw [roundSize_zero]; exact hp)
  rw [show idOfs gc 0 + p = p from by simp [idOfs]] at h
  rw [h, specRound_getD_zero teams gc byes upto p hp]

theorem specArena_getD_later (teams : List Team) (gc byes upto ρ i : Nat)
    (hρ : ρ < upto) (hρ0 : ρ ≠ 0) (hi : i < roundSize gc ρ) :
    (specArena teams gc byes upto).getD (idOfs gc ρ + i) noGame =
      specLater gc upto ρ i := by
  rw [specArena_getD teams gc byes upto ρ i hρ hi,
    specRound_getD_later teams gc byes upto ρ i hρ0 hi]

theorem bracket_access (teams : List Team) (h4 : 4 ≤ teams.length) :
    ∃ e, 1 ≤ e ∧ gameCount teams.length = 2 ^ e ∧
      (createBracket teams).1 =
        specArena teams (2 ^ e) (2 ^ e * 2 - teams.length) (e + 1) ∧
      (createBracket teams).2 = specRounds (2 ^ e) (e + 1) := by
  obtain ⟨j, hj⟩ := gameCount_pow teams.length
  refine ⟨j + 1, by omega, hj, ?_, ?_⟩ <;>
    rw [createBracket_spec teams h4, hj, log2_pow]

/-- C5 counterexample: on the bracket built from four real teams, round-1
game 1 has `col = -1`: the population loop never assigns `col`, so the claim
`col = 0` for round-1 games is false. -/
theorem round1_col_cex :
    ((createBracket cexTeams).1.getD 0 noGame).col = -1 ∧ (-1 : Int) ≠ 0 := by
  rw [cb4_eval]
  exact ⟨by decide, by decide⟩

/-- C5 (amended): layout of a built bracket.  Round-1 games keep their
initial `col = -1` (only `row = 2·position` is assigned); a game of round
`r = ρ+1 ≥ 2` at position `i` has `col = 2·(r−1)` and
`row = (2^(r−1) − 1) + 2^r·i` — which is the claim's accumulation
`row = base + (game_count / round_games)·i·2` with `base` starting at 1 and
increasing by `2^(r−1)` after round `r` completes (the claim's
`⌊2^(round−2)⌋` with `round` read as the upcoming round). -/
theorem bracket_layout (teams : List Team) (h4 : 4 ≤ teams.length) :
    (∀ p, p < gameCount teams.length →
      ((createBracket teams).1.getD p noGame).row = (p : Int) * 2 ∧
      ((createBracket teams).1.getD p noGame).col = -1) ∧
    (∀ ρ i, 1 ≤ ρ → ρ < (createBracket teams).2.length →
      i < ((createBracket teams).2.getD ρ []).length →
      (((createBracket teams).1.getD
          ((((createBracket teams).2.getD ρ []).getD i 0) - 1) noGame).col =
        2 * ((ρ : Int) + 1 - 1)) ∧
      (((createBracket teams).1.getD
          ((((createBracket teams).2.getD ρ []).getD i 0) - 1) noGame).row =
        ((2 ^ ρ - 1) + 2 ^ (ρ + 1) * i : Nat))) := by
  obtain ⟨e, he, hgc, hG, hR⟩ := bracket_access teams h4
  rw [hG, hR, hgc]
  constructor
  · intro p hp
    rw [specArena_getD_zero teams _ _ _ p (by omega) hp]
    unfold specRound1 popGame popGameK
    exact ⟨rfl, rfl⟩
  · intro ρ i hρ1 hρ hi
    rw [specRounds_length] at hρ
    rw [specRounds_getD _ _ _ hρ] at hi ⊢
    rw [List.length_map, List.length_range] at hi
    rw [roundIds_getD _ _ _ hi]
    rw [show idOfs (2 ^ e) ρ + i + 1 - 1 = idOfs (2 ^ e) ρ + i from by omega]
    rw [specArena_getD_later teams _ _ _ ρ i hρ (by omega) hi]
    unfold specLater
    exact ⟨rfl, rfl⟩
/-- C4: shape of the bracket graph.  Round-1 games have no predecessors and
exactly two team slots; the game of round `ρ+1 ≥ 2` at position `i` has
exactly the games at positions `2i` and `2i+1` of the previous round as
predecessors, linked both ways; ids are assigned sequentially (the game with
id `k+1` is the `k`-th game, round 2 starting at `game_count + 1`); and
exactly the final game has no successor. -/
theorem bracket_graph (teams : List Team) (h4 : 4 ≤ teams.length) :
    ((createBracket teams).2.getD 0 [] =
      (List.range (gameCount teams.length)).map (· + 1)) ∧
    (∀ p, p < gameCount teams.length →
      ((createBracket teams).1.getD p noGame).round = 1 ∧
      ((createBracket teams).1.getD p noGame).previous_games = [] ∧
      ((createBracket teams).1.getD p noGame).teams.length = 2) ∧
    (∀ ρ i, 1 ≤ ρ → ρ < (createBracket teams).2.length →
      i < ((createBracket teams).2.getD ρ []).length →
      (((createBracket teams).1.getD
          ((((createBracket teams).2.getD ρ []).getD i 0) - 1) noGame).round =
        ρ + 1) ∧
      (((createBracket teams).1.getD
          ((((createBracket teams).2.getD ρ []).getD i 0) - 1) noGame).previous_games =
        [((createBracket teams).2.getD (ρ - 1) []).getD (2 * i) 0,
         ((createBracket teams).2.getD (ρ - 1) []).getD (2 * i + 1) 0]) ∧
      (∀ pid ∈ ((createBracket teams).1.getD
          ((((createBracket teams).2.getD ρ []).getD i 0) - 1) noGame).previous_games,
        ((createBracket teams).1.getD (pid - 1) noGame).next_game =
          some (((createBracket teams).2.getD ρ []).getD i 0))) ∧
    ((∀ k, k < (createBracket teams).1.length →
      ((createBracket teams).1.getD k noGame).id = k + 1) ∧
      ((createBracket teams).2.getD 1 []).getD 0 0 =
        gameCount teams.length + 1) ∧
    (∀ k, k < (createBracket teams).1.length →
      (((createBracket teams).1.getD k noGame).next_game = none ↔
        k = (createBracket teams).1.length - 1)) := by
  obtain ⟨e, he, hgc, hG, hR⟩ := bracket_access teams h4
  rw [hG, hR, hgc]
  have hlen : (specArena teams (2 ^ e) (2 ^ e * 2 - teams.length) (e + 1)).length =
      idOfs (2 ^ e) (e + 1) := specArena_length _ _ _ _
  have hlast : idOfs (2 ^ e) (e + 1) = idOfs (2 ^ e) e + 1 := by
    rw [idOfs_succ_eq, roundSize_last]
  refine ⟨?_, ?_, ?_, ⟨?_, ?_⟩, ?_⟩
  · rw [specRounds_getD _ _ _ (by omega), roundSize_zero]
    refine List.map_congr_left ?_
    intro i _
    show idOfs (2 ^ e) 0 + i + 1 = i + 1
    rw [show idOfs (2 ^ e) 0 = 0 from rfl]
    omega
  · intro p hp
    rw [specArena_getD_zero teams _ _ _ p (by omega) hp]
    unfold specRound1 popGame popGameK
    exact ⟨rfl, rfl, rfl⟩
  · intro ρ i hρ1 hρ hi
    rw [specRounds_length] at hρ
    rw [specRounds_getD _ _ _ hρ] at hi ⊢
    rw [List.length_map, List.length_range] at hi
    rw [roundIds_getD _ _ _ hi]
    rw [show idOfs (2 ^ e) ρ + i + 1 - 1 = idOfs (2 ^ e) ρ + i from by omega]
    rw [specArena_getD_later teams _ _ _ ρ i hρ (by omega) hi]
    have hrs : 2 * roundSize (2 ^ e) ρ = roundSize (2 ^ e) (ρ - 1) := by
      have h1 := roundSize_two_mul e (ρ - 1) (by omega)
      rw [show ρ - 1 + 1 = ρ from by omega] at h1
      exact h1
    have h2i : 2 * i < roundSize (2 ^ e) (ρ - 1) := by omega
    have h2i1 : 2 * i + 1 < roundSize (2 ^ e) (ρ - 1) := by omega
    rw [specRounds_getD _ _ _ (show ρ - 1 < e + 1 by omega)]
    rw [roundIds_getD _ _ _ h2i, roundIds_getD _ _ _ h2i1]
    refine ⟨rfl, ?_, ?_⟩
    · unfold specLater
      dsimp only
      show
        [idOfs (2 ^ e) (ρ - 1) + 2 * i + 1, idOfs (2 ^ e) (ρ - 1) + 2 * i + 2] =
          [idOfs (2 ^ e) (ρ - 1) + 2 * i + 1, idOfs (2 ^ e) (ρ - 1) + (2 * i + 1) + 1]
      congr 2
    · intro pid hpid
      unfold specLater at hpid
      dsimp only at hpid
      simp only [List.mem_cons, List.not_mem_nil, or_false] at hpid
      have hρ1e : ρ - 1 < e + 1 := by omega
      rcases hpid with hpid | hpid
      · subst hpid
        rw [show idOfs (2 ^ e) (ρ - 1) + 2 * i + 1 - 1 =
          idOfs (2 ^ e) (ρ - 1) + 2 * i from by omega]
        by_cases hρ2 : ρ = 1
        · subst hρ2
          rw [show (1 : Nat) - 1 = 0 from rfl] at h2i ⊢
          rw [show idOfs (2 ^ e) 0 + 2 * i = 2 * i from by simp [idOfs]]
          rw [specArena_getD_zero teams _ _ _ (2 * i) (by omega)
            (by rw [← roundSize_zero (2 ^ e)]; exact h2i)]
          unfold specRound1
          dsimp only
          rw [if_pos (by omega)]
          rw [idOfs_one]
          congr 1
          omega
        · rw [specArena_getD_later teams _ _ _ (ρ - 1) (2 * i) hρ1e
            (by omega) h2i]
          unfold specLater
          dsimp only
          rw [if_pos (by omega)]
          rw [show ρ - 1 + 1 = ρ from by omega]
          congr 1
          omega
      · subst hpid
        rw [show idOfs (2 ^ e) (ρ - 1) + 2 * i + 2 - 1 =
          idOfs (2 ^ e) (ρ - 1) + (2 * i + 1) from by omega]
        by_cases hρ2 : ρ = 1
        · subst hρ2
          rw [show (1 : Nat) - 1 = 0 from rfl] at h2i1 ⊢
          rw [show idOfs (2 ^ e) 0 + (2 * i + 1) = 2 * i + 1 from by simp [idOfs]]
          rw [specArena_getD_zero teams _ _ _ (2 * i + 1) (by omega)
            (by rw [← roundSize_zero (2 ^ e)]; exact h2i1)]
          unfold specRound1
          dsimp only
          rw [if_pos (by omega)]
          rw [idOfs_one]
          congr 1
          omega
        · rw [specArena_getD_later teams _ _ _ (ρ - 1) (2 * i + 1) hρ1e
            (by omega) h2i1]
          unfold specLater
          dsimp only
          rw [if_pos (by omega)]
          rw [show ρ - 1 + 1 = ρ from by omega]
          congr 1
          omega
  · intro k hk
    rw [hlen] at hk
    obtain ⟨ρ, i, hρ, hi, hk⟩ := idOfs_decompose (2 ^ e) (e + 1) k hk
    subst hk
    by_cases hρ0 : ρ = 0
    · subst hρ0
      rw [show idOfs (2 ^ e) 0 + i = i from by simp [idOfs]]
      rw [specArena_getD_zero teams _ _ _ i (by omega)
        (by rw [← roundSize_zero (2 ^ e)]; exact hi)]
      rfl
    · rw [specArena_getD_later teams _ _ _ ρ i hρ hρ0 hi]
      unfold specLater
      rfl
  · rw [specRounds_getD _ _ _ (by omega),
      roundIds_getD _ _ _ (by exact roundSize_pos e 1 he), idOfs_one]
  · intro k hk
    rw [hlen] at hk ⊢
    obtain ⟨ρ, i, hρ, hi, hk⟩ := idOfs_decompose (2 ^ e) (e + 1) k hk
    subst hk
    by_cases hρ0 : ρ = 0
    · subst hρ0
      rw [show idOfs (2 ^ e) 0 + i = i from by simp [idOfs]]
      rw [specArena_getD_zero teams _ _ _ i (by omega)
        (by rw [← roundSize_zero (2 ^ e)]; exact hi)]
      unfold specRound1
      dsimp only
      rw [if_pos (by omega)]
      constructor
      · intro h
        cases h
      · intro h
        exfalso
        have h1 : idOfs (2 ^ e) 1 ≤ idOfs (2 ^ e) e := idOfs_mono _ _ _ (by omega)
        rw [idOfs_one] at h1
        rw [roundSize_zero] at hi
        omega
    · rw [specArena_getD_later teams _ _ _ ρ i hρ hρ0 hi]
      unfold specLater
      dsimp only
      by_cases hρe : ρ = e
      · subst hρe
        rw [if_neg (by omega)]
        have hi1 : i = 0 := by
          rw [roundSize_last] at hi
          omega
        subst hi1
        simp only [true_iff]
        omega
      · rw [if_pos (by omega)]
        constructor
        · intro h
          cases h
        · intro h
          exfalso
          have h1 : idOfs (2 ^ e) (ρ + 1) ≤ idOfs (2 ^ e) e :=
            idOfs_mono _ _ _ (by omega)
          rw [idOfs_succ_eq] at h1
          omega

/-- Witness for `bracket_layout` at the concrete 4-team bracket. -/
theorem bracket_layout_w :
    ((createBracket cexTeams).1.getD 0 noGame).row = (0 : Int) * 2 ∧
    ((createBracket cexTeams).1.getD 0 noGame).col = -1 :=
  (bracket_layout cexTeams (by decide)).1 0
    (by rw [show cexTeams.length = 4 from rfl, gameCount_four]; omega)

/-- Witness for `bracket_graph` at the concrete 4-team bracket. -/
theorem bracket_graph_w :
    (createBracket cexTeams).2.getD 0 [] =
      (List.range (gameCount cexTeams.length)).map (· + 1) :=
  (bracket_graph cexTeams (by decide)).1

/-! ## Reachability infrastructure for the advancement machine -/

theorem teamAt_ne_bye (teams : List Team) (hb : Team.bye ∉ teams) (k : Nat) :
    teamAt teams k ≠ Team.bye := by
  unfold teamAt
  rcases h : teams[k]? with _ | t
  · rw [List.getD_eq_getElem?_getD, h]
    simp
  · rw [List.getD_eq_getElem?_getD, h]
    intro heq
    exact hb (heq ▸ List.getElem?_mem h)

theorem byeTeam_none_of_not_mem (g : Game) (h : Team.bye ∉ g.teams) :
    g.byeTeam = none := by
  unfold Game.byeTeam
  rcases hts : g.teams with _ | ⟨a, _ | ⟨b, rest⟩⟩
  · rfl
  · rfl
  · rw [hts] at h
    simp only [List.mem_cons, not_or] at h
    show (if a = Team.bye then some b
      else if b = Team.bye then some a else none) = none
    rw [if_neg (fun hh => h.1 hh.symm), if_neg (fun hh => h.2.1 hh.symm)]

theorem surv_ne_bye (g : Game) (hc : byeCount g ≤ 1) (surv : Team)
    (h : g.byeTeam = some surv) : surv ≠ Team.bye := by
  unfold Game.byeTeam at h
  rcases hts : g.teams with _ | ⟨a, _ | ⟨b, rest⟩⟩ <;> rw [hts] at h
  · exact absurd h (by simp)
  · exact absurd h (by simp)
  · unfold byeCount at hc
    rw [hts] at hc
    replace h : (if a = Team.bye then some b
      else if b = Team.bye then some a else none) = some surv := h
    by_cases hab : a = Team.bye
    · rw [if_pos hab] at h
      subst hab
      have hb : b = surv := Option.some_inj.mp h
      subst hb
      intro hsb
      subst hsb
      simp [List.count_cons] at hc
    · rw [if_neg hab] at h
      by_cases hbb : b = Team.bye
      · rw [if_pos hbb] at h
        have ha : a = surv := Option.some_inj.mp h
        subst ha
        intro hsb
        exact hab hsb
      · exact absurd h (by simp [hbb])

theorem findGame_pushTeam_ne (games : List Game) (nid : Nat) (t : Team)
    (gid : Nat) (h : gid ≠ nid) :
    findGame (pushTeam games nid t) gid = findGame games gid := by
  induction games with
  | nil => rfl
  | cons g tl ih =>
      unfold findGame pushTeam at ih ⊢
      simp only [List.map_cons]
      by_cases hg : g.id = nid
      · rw [List.find?_cons_of_neg _ (by simp [hg]; omega),
          List.find?_cons_of_neg _ (by simp [hg]; omega)]
        exact ih
      · rw [if_neg hg]
        by_cases hgid : g.id = gid
        · rw [List.find?_cons_of_pos _ (by simp [hgid]),
            List.find?_cons_of_pos _ (by simp [hgid])]
        · rw [List.find?_cons_of_neg _ (by simp [hgid]),
            List.find?_cons_of_neg _ (by simp [hgid])]
          exact ih

theorem findGame_seq_aux (games : List Game) :
    ∀ (base gid : Nat), (∀ k, k < games.length →
      (games.getD k noGame).id = base + k + 1) →
    base + 1 ≤ gid → gid ≤ base + games.length →
    findGame games gid = some (games.getD (gid - base - 1) noGame) := by
  induction games with
  | nil =>
      intro base gid _ h1 h2
      simp only [List.length_nil] at h2
      omega
  | cons g tl ih =>
      intro base gid hseq h1 h2
      have hg : g.id = base + 1 := by
        have := hseq 0 (by simp)
        simpa using this
      by_cases he : gid = base + 1
      · unfold findGame
        rw [List.find?_cons_of_pos _ (by simp [hg, he])]
        rw [show gid - base - 1 = 0 from by omega]
        rfl
      · unfold findGame
        rw [List.find?_cons_of_neg _ (by simp [hg]; omega)]
        have htl := ih (base + 1) gid
          (fun k hk => by
            have hs := hseq (k + 1) (by simp only [List.length_cons]; omega)
            rw [List.getD_cons_succ] at hs
            omega)
          (by omega) (by simp only [List.length_cons] at h2; omega)
        unfold findGame at htl
        rw [htl]
        rw [show gid - base - 1 = gid - (base + 1) - 1 + 1 from by omega]
        rw [List.getD_cons_succ]

theorem findGame_of_seq (games : List Game) (gid : Nat)
    (hseq : ∀ k, k < games.length → (games.getD k noGame).id = k + 1)
    (h1 : 1 ≤ gid) (h2 : gid ≤ games.length) :
    findGame games gid = some (games.getD (gid - 1) noGame) := by
  have h := findGame_seq_aux games 0 gid
    (fun k hk => by rw [hseq k hk]; omega) (by omega) (by omega)
  rw [h]
  rw [show gid - 0 - 1 = gid - 1 from by omega]

theorem specArena_id_seq (teams : List Team) (gc byes upto : Nat) :
    ∀ k, k < (specArena teams gc byes upto).length →
      ((specArena teams gc byes upto).getD k noGame).id = k + 1 := by
  intro k hk
  rw [specArena_length] at hk
  obtain ⟨ρ, i, hρ, hi, hki⟩ := idOfs_decompose gc upto k hk
  subst hki
  by_cases hρ0 : ρ = 0
  · subst hρ0
    rw [show idOfs gc 0 + i = i from by simp [idOfs]]
    rw [specArena_getD_zero teams gc byes upto i hρ
      (by rw [← roundSize_zero gc]; exact hi)]
    rfl
  · rw [specArena_getD_later teams gc byes upto ρ i hρ hρ0 hi]
    rfl

theorem mem_specArena (teams : List Team) (gc byes upto : Nat) (g : Game)
    (h : g ∈ specArena teams gc byes upto) :
    (∃ p, p < gc ∧ g = specRound1 teams gc byes upto p) ∨
    (∃ ρ i, 1 ≤ ρ ∧ ρ < upto ∧ i < roundSize gc ρ ∧
      g = specLater gc upto ρ i) := by
  unfold specArena at h
  rw [List.mem_flatten] at h
  obtain ⟨l, hl, hg⟩ := h
  rw [List.mem_map] at hl
  obtain ⟨ρ, hρ, rfl⟩ := hl
  rw [List.mem_range] at hρ
  unfold specRound at hg
  by_cases hρ0 : ρ = 0
  · subst hρ0
    rw [if_pos rfl, List.mem_map] at hg
    obtain ⟨p, hp, rfl⟩ := hg
    rw [List.mem_range] at hp
    exact Or.inl ⟨p, hp, rfl⟩
  · rw [if_neg hρ0, List.mem_map] at hg
    obtain ⟨i, hi, rfl⟩ := hg
    rw [List.mem_range] at hi
    exact Or.inr ⟨ρ, i, by omega, hρ, hi, rfl⟩

theorem specArena_nextHigh (teams : List Team) (gc byes upto : Nat) :
    ∀ g ∈ specArena teams gc byes upto, ∀ nid, g.next_game = some nid →
      gc < nid := by
  intro g hg nid hnid
  rcases mem_specArena teams gc byes upto g hg with
    ⟨p, _, rfl⟩ | ⟨ρ, i, hρ1, _, _, rfl⟩
  · simp only [specRound1] at hnid
    by_cases h1 : 1 < upto
    · rw [if_pos h1, Option.some_inj] at hnid
      rw [idOfs_one] at hnid
      omega
    · rw [if_neg h1] at hnid
      exact absurd hnid (by simp)
  · simp only [specLater] at hnid
    by_cases h1 : ρ + 1 < upto
    · rw [if_pos h1, Option.some_inj] at hnid
      have hm := idOfs_mono gc 1 (ρ + 1) (by omega)
      rw [idOfs_one] at hm
      omega
    · rw [if_neg h1] at hnid
      exact absurd hnid (by simp)

theorem pushTeam_mem (games : List Game) (nid : Nat) (t : Team) (g' : Game)
    (h : g' ∈ pushTeam games nid t) :
    ∃ g ∈ games, g'.id = g.id ∧ g'.round = g.round ∧
      g'.next_game = g.next_game ∧
      (g'.teams = g.teams ∨ (g.id = nid ∧ g'.teams = g.teams ++ [t])) := by
  unfold pushTeam at h
  rw [List.mem_map] at h
  obtain ⟨g, hg, rfl⟩ := h
  by_cases hid : g.id = nid
  · rw [if_pos hid]
    exact ⟨g, hg, rfl, rfl, rfl, Or.inr ⟨hid, rfl⟩⟩
  · rw [if_neg hid]
    exact ⟨g, hg, rfl, rfl, rfl, Or.inl rfl⟩

theorem startGame_summon_ready :
    ∀ (fuel : Nat) (games : List Game) (gid : Nat) (st : List Game)
      (effs : List StartEffect),
      startGame games gid fuel = some (st, effs) →
      ∀ gid' r, StartEffect.summonTable gid' r ∈ effs →
        ∃ games' g, Relation.ReflTransGen Step games games' ∧
          findGame games' gid' = some g ∧ g.byeTeam = none ∧
          2 ≤ g.teams.length := by
  intro fuel
  induction fuel with
  | zero =>
      intro games gid st effs h
      exact absurd h (by simp [startGame])
  | succ fuel ih =>
      intro games gid st effs h gid' r hmem
      rw [startGame] at h
      rcases hfind : findGame games gid with _ | g
      · rw [hfind] at h
        exact absurd h (by simp)
      · rw [hfind] at h
        dsimp only at h
        rcases hbye : g.byeTeam with _ | surv
        · rw [hbye] at h
          dsimp only at h
          by_cases hlen : g.teams.length < 2
          · rw [if_pos hlen, Option.some_inj] at h
            have he : ([] : List StartEffect) = effs := congrArg Prod.snd h
            rw [← he] at hmem
            exact absurd hmem (by simp)
          · rw [if_neg hlen, Option.some_inj] at h
            have he : [StartEffect.summonTable gid g.round] = effs :=
              congrArg Prod.snd h
            rw [← he] at hmem
            simp only [List.mem_cons, List.not_mem_nil, or_false,
              StartEffect.summonTable.injEq] at hmem
            refine ⟨games, g, Relation.ReflTransGen.refl, ?_, hbye, by omega⟩
            rw [hmem.1]
            exact hfind
        · rw [hbye] at h
          dsimp only at h
          rcases hnext : g.next_game with _ | nid
          · rw [hnext] at h
            exact absurd h (by simp)
          · rw [hnext] at h
            dsimp only at h
            rw [Option.map_eq_some'] at h
            obtain ⟨⟨st', effs'⟩, hrec, heq⟩ := h
            have he : (surv.users.filter (fun u => !isBot u)).map
                (StartEffect.announceBye g.round) ++ effs' = effs :=
              congrArg Prod.snd heq
            rw [← he, List.mem_append] at hmem
            rcases hmem with hmem | hmem
            · rw [List.mem_map] at hmem
              obtain ⟨u, _, hu⟩ := hmem
              exact absurd hu (by simp)
            · obtain ⟨games', g', hreach, hf', hb', hl'⟩ :=
                ih (pushTeam games nid surv) nid st' effs' hrec gid' r hmem
              exact ⟨games', g',
                Relation.ReflTransGen.head
                  (Step.bye games gid nid g surv hfind hbye hnext) hreach,
                hf', hb', hl'⟩

theorem pushTeam_length (games : List Game) (nid : Nat) (t : Team) :
    (pushTeam games nid t).length = games.length := by
  unfold pushTeam
  exact List.length_map _ _

theorem reach_findGame_low (gc : Nat) (games games' : List Game)
    (hreach : Relation.ReflTransGen Step games games')
    (hhigh : ∀ g ∈ games, ∀ nid, g.next_game = some nid → gc < nid) :
    (∀ g ∈ games', ∀ nid, g.next_game = some nid → gc < nid) ∧
    (∀ gid, gid ≤ gc → findGame games' gid = findGame games gid) := by
  induction hreach with
  | refl => exact ⟨hhigh, fun _ _ => rfl⟩
  | tail hab hbc ih =>
      obtain ⟨hhb, hfind⟩ := ih
      have key : ∀ (b : List Game) (nid : Nat) (t : Team),
          (∀ g ∈ b, ∀ n, g.next_game = some n → gc < n) → gc < nid →
          (∀ g ∈ pushTeam b nid t, ∀ n, g.next_game = some n → gc < n) ∧
          (∀ gid, gid ≤ gc →
            findGame (pushTeam b nid t) gid = findGame b gid) := by
        intro b nid t hb hn
        constructor
        · intro g' hg' n hgn
          obtain ⟨g, hg, _, _, hnext', _⟩ := pushTeam_mem b nid t g' hg'
          exact hb g hg n (hnext' ▸ hgn)
        · intro gid hgid
          exact findGame_pushTeam_ne b nid t gid (by omega)
      rcases hbc with ⟨gid0, nid, g, surv, hf, hby, hn⟩ |
        ⟨gid0, nid, g, a, bb, hf, hby, hl, hn⟩
      · have hgm := List.mem_of_find?_eq_some hf
        have hnid : gc < nid := hhb g hgm nid hn
        obtain ⟨h1, h2⟩ := key _ nid surv hhb hnid
        exact ⟨h1, fun gid hgid => (h2 gid hgid).trans (hfind gid hgid)⟩
      · have hgm := List.mem_of_find?_eq_some hf
        have hnid : gc < nid := hhb g hgm nid hn
        obtain ⟨h1, h2⟩ := key _ nid (Team.mk a bb) hhb hnid
        exact ⟨h1, fun gid hgid => (h2 gid hgid).trans (hfind gid hgid)⟩

theorem pushTeam_getD (games : List Game) (nid : Nat) (t : Team) (k : Nat)
    (hk : k < games.length) :
    (pushTeam games nid t).getD k noGame =
      (fun g => if g.id = nid then { g with teams := g.teams ++ [t] } else g)
        (games.getD k noGame) := by
  unfold pushTeam
  rw [List.getD_eq_getElem _ _ (by simpa using hk),
    List.getD_eq_getElem _ _ hk, List.getElem_map]

theorem goodBracket_push (games : List Game) (nid : Nat) (t : Team)
    (hgood : GoodBracket games) (ht : t ≠ Team.bye)
    (htarget : ∀ g' ∈ games, g'.id = nid → 2 ≤ g'.round) :
    GoodBracket (pushTeam games nid t) := by
  obtain ⟨hseq, hprop, hnext⟩ := hgood
  refine ⟨?_, ?_, ?_⟩
  · intro k hk
    rw [pushTeam_length] at hk
    rw [pushTeam_getD games nid t k hk]
    by_cases hc : (games.getD k noGame).id = nid
    · simp only [if_pos hc]
      exact hseq k hk
    · simp only [if_neg hc]
      exact hseq k hk
  · intro g' hg'
    obtain ⟨g, hg, hid, hround, _, hteams⟩ := pushTeam_mem games nid t g' hg'
    obtain ⟨h1, h2, h3, h4⟩ := hprop g hg
    rcases hteams with hsame | ⟨hgn, happ⟩
    · refine ⟨hround ▸ h1, ?_, ?_, ?_⟩
      · unfold byeCount at h2 ⊢
        rw [hsame]
        exact h2
      · intro hr1
        rw [hround] at hr1
        obtain ⟨hl, hh⟩ := h3 hr1
        rw [hsame]
        exact ⟨hl, hh⟩
      · intro hr2
        rw [hround] at hr2
        rw [hsame]
        exact h4 hr2
    · have hr2 : 2 ≤ g.round := htarget g hg hgn
      have hnb : Team.bye ∉ g.teams := h4 hr2
      refine ⟨hround ▸ h1, ?_, ?_, ?_⟩
      · unfold byeCount at h2 ⊢
        rw [happ, List.count_append]
        have : List.count Team.bye [t] = 0 := by
          simp [List.count_singleton]
          intro hc
          exact ht hc
        omega
      · intro hr1
        rw [hround] at hr1
        omega
      · intro _
        rw [happ, List.mem_append]
        intro hmem
        rcases hmem with hmem | hmem
        · exact hnb hmem
        · simp only [List.mem_cons, List.not_mem_nil, or_false] at hmem
          exact ht hmem.symm
  · intro g' hg' nid' hn' g'' hg'' hid''
    obtain ⟨g1, hg1, _, _, hnext1, _⟩ := pushTeam_mem games nid t g' hg'
    obtain ⟨g2, hg2, hid2, hround2, _, _⟩ := pushTeam_mem games nid t g'' hg''
    rw [hround2]
    exact hnext g1 hg1 nid' (hnext1 ▸ hn') g2 hg2 (hid2 ▸ hid'')

theorem reach_good (games games' : List Game)
    (hreach : Relation.ReflTransGen Step games games')
    (hgood : GoodBracket games) : GoodBracket games' := by
  induction hreach with
  | refl => exact hgood
  | tail hab hbc ih =>
      rcases hbc with ⟨gid0, nid, g, surv, hf, hby, hn⟩ |
        ⟨gid0, nid, g, a, bb, hf, hby, hl, hn⟩
      · have hgm := List.mem_of_find?_eq_some hf
        have hsurv : surv ≠ Team.bye :=
          surv_ne_bye g (ih.2.1 g hgm).2.1 surv hby
        exact goodBracket_push _ nid surv ih hsurv
          (fun g' hg' hid => ih.2.2 g hgm nid hn g' hg' hid)
      · have hgm := List.mem_of_find?_eq_some hf
        exact goodBracket_push _ nid (Team.mk a bb) ih
          (fun hc => Team.noConfusion hc)
          (fun g' hg' hid => ih.2.2 g hgm nid hn g' hg' hid)

theorem specArena_good (teams : List Team) (gc byes upto : Nat)
    (hbye : Team.bye ∉ teams) :
    GoodBracket (specArena teams gc byes upto) := by
  refine ⟨specArena_id_seq teams gc byes upto, ?_, ?_⟩
  · intro g hg
    rcases mem_specArena teams gc byes upto g hg with
      ⟨p, hp, rfl⟩ | ⟨ρ, i, hρ1, hρ, hi, rfl⟩
    · have ha := teamAt_ne_bye teams hbye (topAt gc p)
      refine ⟨le_refl 1, ?_, ?_, ?_⟩
      · show List.count Team.bye
          [teamAt teams (topAt gc p),
           secondSeat teams byes (topAt gc p)] ≤ 1
        unfold secondSeat
        by_cases hk : topAt gc p < byes
        · rw [if_pos hk]
          simp [List.count_cons, ha]
        · rw [if_neg hk]
          have hb := teamAt_ne_bye teams hbye
            (teams.length - 1 - (topAt gc p - byes))
          simp [List.count_cons, ha, hb]
      · intro _
        exact ⟨rfl, ha⟩
      · intro h2
        exact absurd h2 (by simp [specRound1, popGame, popGameK])
    · refine ⟨by simp [specLater], ?_, ?_, ?_⟩
      · show List.count Team.bye ([] : List Team) ≤ 1
        simp
      · intro hr1
        exact absurd hr1 (by simp [specLater]; omega)
      · intro _
        show Team.bye ∉ ([] : List Team)
        simp
  · intro g hg nid hnid g' hg' hid
    have hhigh := specArena_nextHigh teams gc byes upto g hg nid hnid
    rcases mem_specArena teams gc byes upto g' hg' with
      ⟨p', hp', rfl⟩ | ⟨ρ', i', hρ1', hρ', hi', rfl⟩
    · simp only [specRound1, popGame, popGameK] at hid
      omega
    · show 2 ≤ ρ' + 1
      omega

/-- C9: no game ever holds two `Bye` sentinels.  On every bracket built from
real teams (the sentinel is not in the team list), in every state reachable
by advancement pushes: each game contains at most one `Bye`; games of round
≥ 2 never contain the sentinel at all; a round-1 game's first seat (drawn
from the team list by the `top` cursor) is never the sentinel, so `Bye` can
occupy only the second seat; and a bye-resolved game's surviving team — the
one pushed into the successor — is never the sentinel. -/
theorem no_double_bye (teams : List Team) (h4 : 4 ≤ teams.length)
    (hbye : Team.bye ∉ teams) (games' : List Game)
    (hreach : Relation.ReflTransGen Step (createBracket teams).1 games') :
    ∀ g ∈ games', byeCount g ≤ 1 ∧
      (2 ≤ g.round → Team.bye ∉ g.teams) ∧
      (g.round = 1 → g.teams.getD 0 (Team.mk "" "") ≠ Team.bye) ∧
      (∀ surv, g.byeTeam = some surv → surv ≠ Team.bye) := by
  obtain ⟨e, he, hgc, hG, hR⟩ := bracket_access teams h4
  rw [hG] at hreach
  have hgood := reach_good _ games' hreach
    (specArena_good teams _ _ _ hbye)
  intro g hg
  obtain ⟨h1, h2, h3, h4'⟩ := hgood.2.1 g hg
  exact ⟨h2, h4', fun hr => (h3 hr).2, fun surv hs => surv_ne_bye g h2 surv hs⟩

/-- Witness for `no_double_bye` at the concrete 4-team bracket, reachability
being reflexivity, on its first game. -/
theorem no_double_bye_w :
    byeCount ⟨1, 1, [Team.mk "a" "b", Team.mk "g" "h"], false, false, -1, 0,
        [], some 3⟩ ≤ 1 ∧
    (2 ≤ (Game.mk 1 1 [Team.mk "a" "b", Team.mk "g" "h"] false false (-1) 0
        [] (some 3)).round →
      Team.bye ∉ (Game.mk 1 1 [Team.mk "a" "b", Team.mk "g" "h"] false false
        (-1) 0 [] (some 3)).teams) ∧
    ((Game.mk 1 1 [Team.mk "a" "b", Team.mk "g" "h"] false false (-1) 0
        [] (some 3)).round = 1 →
      (Game.mk 1 1 [Team.mk "a" "b", Team.mk "g" "h"] false false (-1) 0
        [] (some 3)).teams.getD 0 (Team.mk "" "") ≠ Team.bye) ∧
    (∀ surv, (Game.mk 1 1 [Team.mk "a" "b", Team.mk "g" "h"] false false (-1)
        0 [] (some 3)).byeTeam = some surv → surv ≠ Team.bye) :=
  no_double_bye cexTeams (by decide) (by decide) (createBracket cexTeams).1
    Relation.ReflTransGen.refl
    ⟨1, 1, [Team.mk "a" "b", Team.mk "g" "h"], false, false, -1, 0, [], some 3⟩
    (by rw [cb4_eval]; decide)

theorem byeTeam_pair (a b : Team) (g : Game) (h : g.teams = [a, b])
    (ha : a ≠ Team.bye) (hb : b = Team.bye) : g.byeTeam = some a := by
  unfold Game.byeTeam
  rw [h]
  show (if a = Team.bye then some b
    else if b = Team.bye then some a else none) = some a
  rw [if_neg ha, if_pos hb]

theorem round1_closed_form (teams : List Team) (h4 : 4 ≤ teams.length)
    (p : Nat) (hp : p < gameCount teams.length) :
    (createBracket teams).1.getD p noGame =
      { id := p + 1, round := 1,
        teams := [teamAt teams (topAt (gameCount teams.length) p),
          secondSeat teams (gameCount teams.length * 2 - teams.length)
            (topAt (gameCount teams.length) p)],
        started := decide (topAt (gameCount teams.length) p <
          gameCount teams.length * 2 - teams.length),
        finished := decide (topAt (gameCount teams.length) p <
          gameCount teams.length * 2 - teams.length),
        col := -1, row := (p : Int) * 2, previous_games := [],
        next_game := some (gameCount teams.length + p / 2 + 1) } := by
  obtain ⟨e, he, hgc, hG, hR⟩ := bracket_access teams h4
  rw [hG]
  rw [hgc] at hp ⊢
  rw [specArena_getD_zero teams _ _ _ p (by omega) hp]
  unfold specRound1 popGame popGameK
  rw [if_pos (show 1 < e + 1 by omega), idOfs_one]

/-- C3: round-1 cursor population.  For `N ≥ 4` teams every round-1 game (at
arena position `p`, id `p+1`) is a deterministic function of the team order:
its first seat is `teams[top]` where `top` is the cursor value `topAt` (the
loop fills position `i`, then position `game_count−1−i`, incrementing `top`
each call), its second seat is the `Bye` sentinel while byes remain
(`top < byes`, since `top` also counts the calls made) — which immediately
sets `started` and `finished` — and `teams[bottom]` with the decrementing
bottom cursor otherwise.  In particular for `N = 5`: `game_count = 4`,
`byes = 3`, exactly 3 round-1 games are pre-resolved (`started`), a round-1
game is `started` iff it holds the sentinel, and no `start()` invocation ever
creates a match (`GameRoom`/`summonTable`) for such a pre-resolved game. -/
theorem round1_cursor_population (teams : List Team) (h4 : 4 ≤ teams.length) :
    (∀ p, p < gameCount teams.length →
      (createBracket teams).1.getD p noGame =
        { id := p + 1, round := 1,
          teams := [teamAt teams (topAt (gameCount teams.length) p),
            secondSeat teams (gameCount teams.length * 2 - teams.length)
              (topAt (gameCount teams.length) p)],
          started := decide (topAt (gameCount teams.length) p <
            gameCount teams.length * 2 - teams.length),
          finished := decide (topAt (gameCount teams.length) p <
            gameCount teams.length * 2 - teams.length),
          col := -1, row := (p : Int) * 2, previous_games := [],
          next_game := some (gameCount teams.length + p / 2 + 1) }) ∧
    (teams.length = 5 → Team.bye ∉ teams →
      gameCount teams.length = 4 ∧
      gameCount teams.length * 2 - teams.length = 3 ∧
      ((List.range 4).filter (fun p =>
        ((createBracket teams).1.getD p noGame).started)).length = 3 ∧
      (∀ p, p < 4 →
        (((createBracket teams).1.getD p noGame).started = true ↔
          Team.bye ∈ ((createBracket teams).1.getD p noGame).teams)) ∧
      (∀ p, p < 4 → ((createBracket teams).1.getD p noGame).started = true →
        ∀ fuel st effs,
          startGame (createBracket teams).1 (p + 1) fuel = some (st, effs) →
          ∀ r, StartEffect.summonTable (p + 1) r ∉ effs)) := by
  refine ⟨round1_closed_form teams h4, ?_⟩
  intro h5 hb
  have hgc4 : gameCount teams.length = 4 := by
    rw [h5]
    exact gameCount_five
  have hbyes : gameCount teams.length * 2 - teams.length = 3 := by
    rw [hgc4, h5]
  refine ⟨hgc4, hbyes, ?_, ?_, ?_⟩
  · have hfc : ∀ p ∈ List.range 4,
        ((createBracket teams).1.getD p noGame).started =
          decide (topAt 4 p < 3) := by
      intro p hp
      rw [List.mem_range] at hp
      rw [round1_closed_form teams h4 p (by rw [hgc4]; omega)]
      dsimp only
      rw [hbyes, hgc4]
    rw [List.filter_congr hfc]
    decide
  · intro p hp
    rw [round1_closed_form teams h4 p (by rw [hgc4]; omega)]
    dsimp only
    rw [hbyes, hgc4]
    have ha := teamAt_ne_bye teams hb (topAt 4 p)
    constructor
    · intro hs
      have hk : topAt 4 p < 3 := of_decide_eq_true hs
      have hsb : secondSeat teams 3 (topAt 4 p) = Team.bye := by
        unfold secondSeat
        rw [if_pos hk]
      rw [hsb]
      simp
    · intro hm
      simp only [List.mem_cons, List.not_mem_nil, or_false] at hm
      rcases hm with hm | hm
      · exact absurd hm.symm ha
      · unfold secondSeat at hm
        by_cases hk : topAt 4 p < 3
        · exact decide_eq_true hk
        · rw [if_neg hk] at hm
          exact absurd hm.symm (teamAt_ne_bye teams hb _)
  · intro p hp hstart fuel st effs hrun r hmem
    have hp' : p < gameCount teams.length := by
      rw [hgc4]
      omega
    obtain ⟨games', g, hreach, hfindg, hbnone, _⟩ :=
      startGame_summon_ready fuel (createBracket teams).1 (p + 1) st effs
        hrun (p + 1) r hmem
    obtain ⟨e, he, hgc, hG, hR⟩ := bracket_access teams h4
    have h2e : (2 : Nat) ^ e = 4 := by
      rw [← hgc, hgc4]
    rw [hG] at hreach
    obtain ⟨_, hstable⟩ := reach_findGame_low (2 ^ e) _ games' hreach
      (specArena_nextHigh teams (2 ^ e) (2 ^ e * 2 - teams.length) (e + 1))
    have hlen := specArena_length teams (2 ^ e) (2 ^ e * 2 - teams.length)
      (e + 1)
    have hgele : (2 : Nat) ^ e ≤ idOfs (2 ^ e) (e + 1) := by
      have := idOfs_mono (2 ^ e) 1 (e + 1) (by omega)
      rw [idOfs_one] at this
      exact this
    have hfind0 := findGame_of_seq
      (specArena teams (2 ^ e) (2 ^ e * 2 - teams.length) (e + 1)) (p + 1)
      (specArena_id_seq teams (2 ^ e) (2 ^ e * 2 - teams.length) (e + 1))
      (by omega) (by rw [hlen]; omega)
    rw [show p + 1 - 1 = p from by omega] at hfind0
    have hfg : findGame games' (p + 1) =
        some ((specArena teams (2 ^ e) (2 ^ e * 2 - teams.length)
          (e + 1)).getD p noGame) := by
      rw [hstable (p + 1) (by omega)]
      exact hfind0
    have hgeq : g = (createBracket teams).1.getD p noGame := by
      have h1 := Option.some_inj.mp (hfindg.symm.trans hfg)
      rw [h1, hG]
    rw [round1_closed_form teams h4 p hp'] at hstart
    have hk : topAt (gameCount teams.length) p <
        gameCount teams.length * 2 - teams.length := of_decide_eq_true hstart
    have hsb : secondSeat teams (gameCount teams.length * 2 - teams.length)
        (topAt (gameCount teams.length) p) = Team.bye := by
      unfold secondSeat
      rw [if_pos hk]
    have hbt := byeTeam_pair
      (teamAt teams (topAt (gameCount teams.length) p))
      (secondSeat teams (gameCount teams.length * 2 - teams.length)
        (topAt (gameCount teams.length) p))
      ((createBracket teams).1.getD p noGame)
      (by rw [round1_closed_form teams h4 p hp'])
      (teamAt_ne_bye teams hb _) hsb
    rw [hgeq] at hbnone
    exact Option.noConfusion (hbt.symm.trans hbnone)

/-- Witness for `round1_cursor_population` at five concrete teams: exactly
three of the four round-1 games are pre-resolved. -/
theorem round1_cursor_population_w :
    ((List.range 4).filter (fun p =>
      ((createBracket cexTeams5).1.getD p noGame).started)).length = 3 :=
  ((round1_cursor_population cexTeams5 (by decide)).2 (by decide)
    (by decide)).2.2.1
